import Mathlib

/-!
Verification of the table-tennis tournament engine (bracket generation,
result validation, progression, finalization, point accounting).

The JavaScript source is shallowly embedded: players are identified by
their numeric ids (`Nat`), database rows become Lean structures, and the
route handlers / helper functions become pure Lean functions.  Randomness
(the Fisher–Yates shuffle of the padded slot list) is modelled by
quantifying over all permutations of the padded list.
-/

namespace TT

/-- A `Match` row.  `jugador2Id = none` represents a bye (the JS code stores
`null`).  `estado` is one of `"Pendiente"`, `"En curso"`, `"Finalizado"`;
newly created non-bye matches get the schema default `"Pendiente"`. -/
structure Match where
  torneoId : Nat
  jugador1Id : Nat
  jugador2Id : Option Nat
  ronda : Nat
  fase : String
  ganadorId : Option Nat
  setsJ1 : Nat
  setsJ2 : Nat
  estado : String
deriving Repr, DecidableEq

/-- A pending match as created by the generators (no winner, schema-default
state). -/
def mkPending (t j1 : Nat) (j2 : Option Nat) (r : Nat) (f : String) : Match :=
  ⟨t, j1, j2, r, f, none, 0, 0, "Pendiente"⟩

/-- A synthesized bye-advance match: immediately finished, the sole player
recorded as winner with a nominal 1–0 sets margin (tournaments.js lines
39–49 and the odd-winner branch of `generateNextMatch`). -/
def mkBye (t j1 r : Nat) (f : String) : Match :=
  ⟨t, j1, none, r, f, some j1, 1, 0, "Finalizado"⟩

/-! ## Elimination bracket generation (tournaments.js, `generateEliminationBracket`) -/

/-- `totalSlots = 2 ^ ceil(log2 n)`: the padded slot count. -/
def elimSlots (n : Nat) : Nat := 2 ^ Nat.clog 2 n

/-- The BYE-padded slot list before the shuffle: the players followed by
`null` padding up to `elimSlots`. -/
def padPlayers (players : List Nat) : List (Option Nat) :=
  players.map some ++ List.replicate (elimSlots players.length - players.length) none

/-- The pairing loop of `generateEliminationBracket` (lines 28–51): slots are
consumed two at a time; two real players give a pending round-1 match, a real
player in the even slot paired with a BYE gives a synthesized bye-advance,
and a pair whose even slot is a BYE produces nothing (`players[i]` falsy). -/
def elimPairs (t : Nat) : List (Option Nat) → List Match
  | some p :: some q :: rest => mkPending t p (some q) 1 "Principal" :: elimPairs t rest
  | some p :: none :: rest => mkBye t p 1 "Principal" :: elimPairs t rest
  | none :: _ :: rest => elimPairs t rest
  | [some p] => [mkBye t p 1 "Principal"]
  | [none] => []
  | [] => []

/-! ## Round-robin generation (tournaments.js, `generateRoundRobinBracket`) -/

/-- One rotation step (lines 113–118): the entry at position 0 is fixed, the
entry at position 1 moves to the end, every other entry shifts one left. -/
def rotateOnce : List α → List α
  | [] => []
  | [x] => [x]
  | x :: y :: rest => x :: (rest ++ [y])

/-- The matches of one round (lines 92–111): for `i < n/2` pair the entries
at positions `i` and `n-1-i`; a match is created only when both are real. -/
def roundMatchesRR (t r : Nat) (l : List (Option Nat)) : List Match :=
  (List.range (l.length / 2)).filterMap fun i =>
    match l[i]?, l[l.length - 1 - i]? with
    | some (some p), some (some q) => some (mkPending t p (some q) r "Principal")
    | _, _ => none

/-- The round loop (lines 89–121): emit the current round's matches, rotate,
repeat; `fuel` is the number of remaining rounds. -/
def rrRounds (t : Nat) (l : List (Option Nat)) : Nat → Nat → List Match
  | _, 0 => []
  | r, fuel + 1 => roundMatchesRR t r l ++ rrRounds t (rotateOnce l) (r + 1) fuel

/-- `generateRoundRobinBracket`: append a phantom BYE when the player count
is odd, then run `n' - 1` rounds of the circle method. -/
def generateRoundRobinBracket (players : List Nat) (t : Nat) : List Match :=
  let l : List (Option Nat) :=
    if players.length % 2 = 0 then players.map some else players.map some ++ [none]
  rrRounds t l 1 (l.length - 1)

/-- `k` applications of the rotation (the state of the entry array at the
start of round `k + 1`). -/
def rotIter (k : Nat) (l : List α) : List α := rotateOnce^[k] l

/-- The unordered pair `{a, b}` is the player pair of match `m`. -/
def hasPair (a b : Nat) (m : Match) : Bool :=
  (m.jugador1Id = a ∧ m.jugador2Id = some b) ∨
    (m.jugador1Id = b ∧ m.jugador2Id = some a)

/-- Index (into the original entry list of length `m + 1`) of the entry at
position `p` after `r` rotations: position 0 is fixed; position `p ≥ 1`
holds tail entry `((p - 1 + r) % m) + 1`. -/
def origIdx (m r p : Nat) : Nat := if p = 0 then 0 else ((p - 1 + r) % m) + 1

/-- In round `r` (0-based), the pair `(i, m - i)` of positions carries the
entries with original indices `u` and `v` (in either order). -/
def hitPair (m u v r i : Nat) : Prop :=
  (origIdx m r i = u ∧ origIdx m r (m - i) = v) ∨
    (origIdx m r i = v ∧ origIdx m r (m - i) = u)

/-- In round `r`, the position pair `(i, m - i)` touches the entry with
original index `m` (the phantom BYE appended for an odd player count). -/
def phantomHit (m r i : Nat) : Prop :=
  origIdx m r i = m ∨ origIdx m r (m - i) = m

instance (m u v r i : Nat) : Decidable (hitPair m u v r i) := by
  unfold hitPair; infer_instance

instance (m r i : Nat) : Decidable (phantomHit m r i) := by
  unfold phantomHit; infer_instance

/-! ## The generate-bracket route (tournaments.js, `POST /:id/generate-bracket`) -/

/-- Outcome of the generate-bracket route: the created matches and the new
tournament state. -/
def generateBracketRoute (tid : Nat) (tipo estado : String) (players : List Nat)
    (shuffledSlots : List (Option Nat)) : Except String (List Match × String) :=
  if estado ≠ "Pendiente" then
    .error "Solo se puede generar el cuadro para torneos pendientes"
  else if players.length < 2 then
    .error "Se requieren al menos 2 jugadores"
  else
    -- `Grupos + Eliminación` creates Group records but no matches; any other
    -- unhandled type (in particular `Doble eliminación`) leaves the match
    -- list empty.
    let ms :=
      if tipo = "Eliminación directa" then elimPairs tid shuffledSlots
      else if tipo = "Round Robin" then generateRoundRobinBracket players tid
      else []
    .ok (ms, "En curso")

/-! ## Result validation and recording (part_000, `PUT /:id/result`) -/

/-- A stored `Set` row.  `ganadorId` is `none` only when the match has no
second player (`match.jugador2Id` is null and the set was not won by
player 1). -/
structure SetRow where
  numeroSet : Nat
  puntosJ1 : Nat
  puntosJ2 : Nat
  ganadorId : Option Nat
deriving Repr, DecidableEq

/-- The `setsJ1` counting loop (lines 104–114): a set is counted for side 1
iff `player1Score > player2Score`; a tied set is counted for neither side. -/
def setsJ1Count (sets : List (Nat × Nat)) : Nat :=
  sets.countP fun s => s.2 < s.1

/-- The `setsJ2` counting loop: a set is counted for side 2 iff
`player2Score > player1Score`. -/
def setsJ2Count (sets : List (Nat × Nat)) : Nat :=
  sets.countP fun s => s.1 < s.2

/-- `setsNeeded = Math.ceil(maxSets / 2)` (line 118). -/
def setsNeeded (spp : Nat) : Nat := (spp + 1) / 2

/-- The validation chain of `PUT /:id/result` (lines 90–151), returning the
computed `(setsJ1, setsJ2)` on acceptance.  `spp` is the tournament's
`setsPorPartido` (3–7 by the creation route's validation). -/
def validateResult (m : Match) (spp : Nat) (sets : List (Nat × Nat)) (winnerId : Nat) :
    Except String (Nat × Nat) :=
  if m.estado = "Finalizado" then
    .error "El partido ya está finalizado"
  else if winnerId ≠ m.jugador1Id ∧ some winnerId ≠ m.jugador2Id then
    .error "El ganador debe ser uno de los jugadores del partido"
  else if sets.length = 0 then
    .error "Debe proporcionar al menos un set"
  else if (setsNeeded spp ≤ setsJ1Count sets ∨ setsNeeded spp ≤ setsJ2Count sets) ∧
      setsNeeded spp * 2 - 1 < sets.length then
    .error "No se pueden registrar sets adicionales"
  else if spp < setsJ1Count sets + setsJ2Count sets then
    .error "Los sets no pueden sumar más que el formato"
  else if ¬ (setsNeeded spp ≤ setsJ1Count sets ∨ setsNeeded spp ≤ setsJ2Count sets) then
    .error "El partido no está completado"
  else if setsNeeded spp ≤ setsJ1Count sets ∧ setsNeeded spp ≤ setsJ2Count sets then
    .error "Solo un jugador puede ganar"
  else if some winnerId ≠
      (if setsNeeded spp ≤ setsJ1Count sets then some m.jugador1Id else m.jugador2Id) then
    .error "El ganador declarado no coincide con los resultados"
  else
    .ok (setsJ1Count sets, setsJ2Count sets)

/-- The match update on acceptance (lines 154–162): store the set counts and
winner and set `estado` to the caller-supplied `status` (the route validated
`status ∈ {Pendiente, En curso, Finalizado}`, all truthy, so
`status || 'Finalizado'` is just `status`). -/
def applyResult (m : Match) (a b winnerId : Nat) (status : String) : Match :=
  { m with setsJ1 := a, setsJ2 := b, ganadorId := some winnerId, estado := status }

/-- The replacement `Set` rows (lines 171–177, `setsToCreate`): 1-based set
numbers; the set's winner is player 1 on a strict player-1 score win and
`match.jugador2Id` otherwise (ties included). -/
def setsToCreateAux (m : Match) (idx : Nat) : List (Nat × Nat) → List SetRow
  | [] => []
  | s :: rest =>
    ⟨idx + 1, s.1, s.2, if s.2 < s.1 then some m.jugador1Id else m.jugador2Id⟩ ::
      setsToCreateAux m (idx + 1) rest

def setsToCreate (m : Match) (sets : List (Nat × Nat)) : List SetRow :=
  setsToCreateAux m 0 sets

/-- The accepted-result path of the route: validate, then produce the updated
match and the full replacement list of `Set` rows. -/
def processResult (m : Match) (spp : Nat) (sets : List (Nat × Nat)) (winnerId : Nat)
    (status : String) : Except String (Match × List SetRow) :=
  match validateResult m spp sets winnerId with
  | .error e => .error e
  | .ok (a, b) => .ok (applyResult m a b winnerId status, setsToCreate m sets)

/-! ## Progression (part_000, `generateNextMatch`) -/

/-- The matches of a (tournament, round, phase) cohort, in id (= creation)
order: the `findMany({torneoId, ronda, fase}, orderBy id asc)` query of
`generateNextMatch`.  List order models id order throughout (`createMany`
appends in order). -/
def cohortOf (tid r : Nat) (f : String) (ms : List Match) : List Match :=
  ms.filter fun m => m.torneoId = tid ∧ m.ronda = r ∧ m.fase = f

/-- The winners of a cohort in match creation order
(`filter(ganadorId).map(ganadorId)`). -/
def cohortWinners (tid r : Nat) (f : String) (ms : List Match) : List Nat :=
  (cohortOf tid r f ms).filterMap Match.ganadorId

/-- The pairing loop of `generateNextMatch` (lines 254–277): winners are
paired consecutively into pending matches; a leftover unpaired winner gets
an immediately-Finished bye-advance. -/
def pairWinners (t r : Nat) (f : String) : List Nat → List Match
  | [] => []
  | [w] => [mkBye t w r f]
  | w1 :: w2 :: rest => mkPending t w1 (some w2) r f :: pairWinners t r f rest

/-- `generateNextMatch` (lines 216–289): the list of matches created at
`round + 1` when the cohort of the just-completed match is fully finished
with at least two winners; otherwise nothing.  (The `winners.length = 1`
branch invokes tournament finalization, which creates no matches and is
modelled by `finalizeTournament`.) -/
def generateNextMatch (tid r : Nat) (f : String) (ms : List Match) : List Match :=
  if (cohortOf tid r f ms).all (fun m => m.estado = "Finalizado") then
    if (cohortWinners tid r f ms).length ≤ 1 then []
    else pairWinners tid (r + 1) f (cohortWinners tid r f ms)
  else []

/-! ## The engine's reachable states (C3) -/

/-- The manual-seeding pairing (tournaments.js lines 606–622): two filled
slots give a pending match; a slot pair with a bye creates NO match (the
route only logs). -/
def manualPairs (t : Nat) : List (Option Nat) → List Match
  | some p :: some q :: rest => mkPending t p (some q) 1 "Principal" :: manualPairs t rest
  | _ :: _ :: rest => manualPairs t rest
  | _ => []

/-- The match-mutating slice of the store for one tournament: its lifecycle
state, its `setsPorPartido`, and its matches in id order. -/
structure EState where
  torneoEstado : String
  setsPorPartido : Nat
  partidos : List Match

/-- One engine operation, as exposed by the routes: bracket generation
(elimination with an arbitrary shuffle outcome, round robin, manual
seeding), starting a pending match, and result recording — which updates
the match via the validator and immediately runs the progression pass.
(Finalization touches no match rows; see `finalizeTournament`.) -/
inductive Step (tid : Nat) : EState → EState → Prop where
  | genElim (s : EState) (ps : List Nat) (slots : List (Option Nat))
      (hpend : s.torneoEstado = "Pendiente") (hn : 2 ≤ ps.length)
      (hperm : slots.Perm (padPlayers ps)) :
      Step tid s ⟨"En curso", s.setsPorPartido, s.partidos ++ elimPairs tid slots⟩
  | genRR (s : EState) (ps : List Nat)
      (hpend : s.torneoEstado = "Pendiente") (hn : 2 ≤ ps.length) :
      Step tid s ⟨"En curso", s.setsPorPartido,
        s.partidos ++ generateRoundRobinBracket ps tid⟩
  | genManual (s : EState) (slots : List (Option Nat))
      (hpend : s.torneoEstado = "Pendiente") :
      Step tid s ⟨"En curso", s.setsPorPartido, s.partidos ++ manualPairs tid slots⟩
  | startMatch (s : EState) (i : Nat) (m : Match)
      (him : s.partidos[i]? = some m) (hp : m.estado = "Pendiente") :
      Step tid s ⟨s.torneoEstado, s.setsPorPartido,
        s.partidos.set i { m with estado := "En curso" }⟩
  | recordResult (s : EState) (i : Nat) (m : Match) (sets : List (Nat × Nat))
      (w a b : Nat) (st : String) (him : s.partidos[i]? = some m)
      (hst : st = "Pendiente" ∨ st = "En curso" ∨ st = "Finalizado")
      (hval : validateResult m s.setsPorPartido sets w = .ok (a, b)) :
      Step tid s ⟨s.torneoEstado, s.setsPorPartido,
        (s.partidos.set i (applyResult m a b w st)) ++
          generateNextMatch tid m.ronda m.fase
            (s.partidos.set i (applyResult m a b w st))⟩

/-- States reachable from a fresh `Pendiente` tournament with no matches. -/
inductive Reachable (tid spp : Nat) : EState → Prop where
  | init : Reachable tid spp ⟨"Pendiente", spp, []⟩
  | step (s s2 : EState) : Reachable tid spp s → Step tid s s2 → Reachable tid spp s2

/-- The match-level winner invariant: a Finished match carries a winner who
is one of its players. -/
def FinishedOk (m : Match) : Prop :=
  m.estado = "Finalizado" →
    ∃ w, m.ganadorId = some w ∧ (w = m.jugador1Id ∨ some w = m.jugador2Id)

/-! ## Finalization and point accounting (part_000, `finalizeTournament`,
`calculateFinalPositions`, `calculatePoints`; tournaments.js, `DELETE /:id`) -/

/-- A `TournamentResult` row (the `torneoId` is implicit: a `TState` models
a single tournament). -/
structure TResult where
  jugadorId : Nat
  posicionFinal : Nat
  puntosGanados : Nat
deriving Repr, DecidableEq

/-- The slice of the store touched by finalization and deletion of one
tournament: its lifecycle state, its matches, its result rows, and every
player's cumulative points. -/
structure TState where
  estado : String
  partidos : List Match
  results : List TResult
  puntos : Nat → Int

/-- The fixed award table (`calculatePoints`). -/
def calculatePoints : Nat → Nat
  | 1 => 100
  | 2 => 75
  | 3 => 50
  | 4 => 25
  | 5 => 10
  | 6 => 10
  | 7 => 5
  | 8 => 5
  | _ => 1

/-- A player's total win count over a list of matches (the per-player
accumulation of `calculateFinalPositions`'s counting loop). -/
def countWins (ms : List Match) (p : Nat) : Nat :=
  ms.countP fun m => m.ganadorId = some p

/-- Stable insertion step for ordering matches by `ronda` descending. -/
def insertRondaDesc (x : Match) : List Match → List Match
  | [] => [x]
  | y :: l => if x.ronda < y.ronda then y :: insertRondaDesc x l else x :: y :: l

/-- `finalizeTournament` loads the matches ordered by `ronda` desc, `id` asc;
on an id-ordered input list this is the stable sort by `ronda` descending. -/
def sortRondaDesc : List Match → List Match
  | [] => []
  | x :: l => insertRondaDesc x (sortRondaDesc l)

/-- One step of the JS `Map` construction in `calculateFinalPositions`: a
match with a winner inserts the winner's key at the end if new (updating the
stored value keeps the key order). -/
def winStep (acc : List Nat) (m : Match) : List Nat :=
  match m.ganadorId with
  | some g => if g ∈ acc then acc else acc ++ [g]
  | none => acc

/-- The winners in first-win order: the key order of the JS `Map` built by
`calculateFinalPositions` (insertion order, values updated in place). -/
def winnersOrder (ms : List Match) : List Nat :=
  ms.foldl winStep []

/-- Stable insertion step for the `sort((a, b) => b.wins - a.wins)` call:
descending by win count, original order preserved among ties. -/
def insertWinsDesc (x : Nat × Nat) : List (Nat × Nat) → List (Nat × Nat)
  | [] => [x]
  | y :: l => if x.2 < y.2 then y :: insertWinsDesc x l else x :: y :: l

def sortWinsDesc : List (Nat × Nat) → List (Nat × Nat)
  | [] => []
  | x :: l => insertWinsDesc x (sortWinsDesc l)

/-- `calculateFinalPositions`: count wins per winner, sort by wins
descending (stable). -/
def calculateFinalPositions (ms : List Match) : List (Nat × Nat) :=
  sortWinsDesc ((winnersOrder ms).map fun p => (p, countWins ms p))

/-- The `tournamentResults` construction (lines 327–332): 1-based positions
in list order, points from the award table. -/
def assignPositions : Nat → List (Nat × Nat) → List TResult
  | _, [] => []
  | i, pw :: l => ⟨pw.1, i, calculatePoints i⟩ :: assignPositions (i + 1) l

/-- The per-result `puntos: { increment: ... }` loop (lines 344–353). -/
def applyAwards (pts : Nat → Int) (rs : List TResult) : Nat → Int :=
  rs.foldl
    (fun f r p => if p = r.jugadorId then f p + (r.puntosGanados : Int) else f p) pts

/-- `finalizeTournament`: a no-op when the tournament is already
`Finalizado`; otherwise persist one result row per ranked winner, award the
points, and close the tournament.  (The global ranking rewrite touches no
per-tournament state and is not modelled.) -/
def finalizeTournament (s : TState) : TState :=
  if s.estado = "Finalizado" then s
  else
    { estado := "Finalizado"
      partidos := s.partidos
      results := s.results ++ assignPositions 1 (calculateFinalPositions (sortRondaDesc s.partidos))
      puntos := applyAwards s.puntos
        (assignPositions 1 (calculateFinalPositions (sortRondaDesc s.partidos))) }

/-- The per-result `puntos: { decrement: ... }` loop of `DELETE /:id`
(lines 434–445). -/
def applyRemovals (pts : Nat → Int) (rs : List TResult) : Nat → Int :=
  rs.foldl
    (fun f r p => if p = r.jugadorId then f p - (r.puntosGanados : Int) else f p) pts

/-- The `force = true` path of `DELETE /:id`: read the result rows, delete
the matches, delete the result rows, then decrement each affected player's
points by the recorded `puntosGanados`. -/
def deleteTournament (s : TState) : TState :=
  { estado := s.estado
    partidos := []
    results := []
    puntos := applyRemovals s.puntos s.results }

/-- The sum of the recorded awards of player `p` in a result-row list. -/
def awardSum (rs : List TResult) (p : Nat) : Int :=
  ((rs.filter fun r => r.jugadorId = p).map fun r => (r.puntosGanados : Int)).sum

end TT

namespace TT

theorem elimSlots_three : elimSlots 3 = 4 := by
  have h1 : Nat.clog 2 3 = Nat.clog 2 2 + 1 := Nat.clog_of_two_le (by norm_num) (by norm_num)
  have h2 : Nat.clog 2 2 = Nat.clog 2 1 + 1 := Nat.clog_of_two_le (by norm_num) (by norm_num)
  simp [elimSlots, h1, h2, Nat.clog_one_right]

theorem padPlayers_three : padPlayers [1, 2, 3] = [some 1, some 2, some 3, none] := by
  simp [padPlayers, elimSlots_three]

/-- C1 counterexample computation: for 3 players the padded list has 4 slots;
the shuffle outcome `[P1, P2, BYE, P3]` is a permutation of the padded list,
yet the pairing produces a single match (P1 vs P2) — player 3's pair
`(BYE, P3)` is dropped, so real+bye matches = 1 ≠ 2 = ⌈3/2⌉. -/
theorem elimPairs_drops_player :
    (padPlayers [1, 2, 3]).Perm [some 1, some 2, none, some 3] ∧
    elimPairs 7 [some 1, some 2, none, some 3] = [mkPending 7 1 (some 2) 1 "Principal"] ∧
    (elimPairs 7 [some 1, some 2, none, some 3]).length = 1 ∧ (3 + 1) / 2 = 2 := by
  rw [padPlayers_three]
  refine ⟨by decide, by decide, by decide, by decide⟩

/-- C9: generating the bracket of a `Pendiente` tournament of type
`Doble eliminación` with at least two resolved players succeeds, creates
zero matches, and still moves the tournament to `En curso`. -/
theorem doubleElim_generates_nothing (tid : Nat) (players : List Nat)
    (slots : List (Option Nat)) (h : 2 ≤ players.length) :
    generateBracketRoute tid "Doble eliminación" "Pendiente" players slots =
      .ok ([], "En curso") := by
  simp [generateBracketRoute, Nat.not_lt.mpr h]

/-- C9 witness: the concrete two-player instance. -/
theorem doubleElim_generates_nothing_witness :
    2 ≤ ([4, 5] : List Nat).length ∧
    generateBracketRoute 1 "Doble eliminación" "Pendiente" [4, 5] [] =
      .ok ([], "En curso") :=
  ⟨by decide, doubleElim_generates_nothing 1 [4, 5] [] (by decide)⟩

/-- C4: a submission containing the tied set `(8, 8)` is ACCEPTED (spec
demands rejection): the tied set counts for neither side, `[11-5, 11-7]`
already completes the best-of-3 match, the adjacent-set limit `3 > 3` is not
exceeded, and the tied set is stored with player 2 as its winner. -/
theorem tiedSet_submission_accepted :
    processResult (mkPending 9 1 (some 2) 1 "Principal") 3
        [(11, 5), (11, 7), (8, 8)] 1 "Finalizado" =
      .ok (⟨9, 1, some 2, 1, "Principal", some 1, 2, 0, "Finalizado"⟩,
        [⟨1, 11, 5, some 1⟩, ⟨2, 11, 7, some 1⟩, ⟨3, 8, 8, some 2⟩]) := by
  rfl

theorem setsToCreateAux_getElem? (m : Match) :
    ∀ (sets : List (Nat × Nat)) (idx i : Nat),
      (setsToCreateAux m idx sets)[i]? = (sets[i]?).map fun s =>
        ⟨idx + i + 1, s.1, s.2, if s.2 < s.1 then some m.jugador1Id else m.jugador2Id⟩ := by
  intro sets
  induction sets with
  | nil => intro idx i; simp [setsToCreateAux]
  | cons s rest ih =>
    intro idx i
    cases i with
    | zero => simp [setsToCreateAux]
    | succ j =>
      simp only [setsToCreateAux, List.getElem?_cons_succ, ih (idx + 1) j]
      have : idx + 1 + j = idx + (j + 1) := by omega
      rw [this]

theorem countP_eraseIdx_of_not (p : α → Bool) :
    ∀ (l : List α) (i : Nat) (x : α), l[i]? = some x → p x = false →
      l.countP p = (l.eraseIdx i).countP p := by
  intro l
  induction l with
  | nil => intro i x hx; simp at hx
  | cons y rest ih =>
    intro i x hx hp
    cases i with
    | zero =>
      simp only [List.getElem?_cons_zero, Option.some.injEq] at hx
      subst hx
      simp [List.eraseIdx, List.countP_cons, hp]
    | succ j =>
      simp only [List.getElem?_cons_succ] at hx
      simp [List.eraseIdx, List.countP_cons, ih j x hx hp]

theorem validateResult_ok_counts (m : Match) (spp : Nat) (sets : List (Nat × Nat))
    (w a b : Nat) (h : validateResult m spp sets w = .ok (a, b)) :
    a = setsJ1Count sets ∧ b = setsJ2Count sets := by
  unfold validateResult at h
  split_ifs at h
  all_goals simp only [Except.ok.injEq, Prod.mk.injEq] at h
  all_goals exact ⟨h.1.symm, h.2.symm⟩

theorem processResult_ok_inv (m : Match) (spp : Nat) (sets : List (Nat × Nat))
    (w : Nat) (st : String) (m' : Match) (rows : List SetRow)
    (h : processResult m spp sets w st = .ok (m', rows)) :
    m' = applyResult m (setsJ1Count sets) (setsJ2Count sets) w st ∧
      rows = setsToCreate m sets := by
  unfold processResult at h
  cases hv : validateResult m spp sets w with
  | error e => rw [hv] at h; exact absurd h (by simp)
  | ok ab =>
    obtain ⟨a, b⟩ := ab
    obtain ⟨ha, hb⟩ := validateResult_ok_counts m spp sets w a b hv
    rw [hv] at h
    simp only [Except.ok.injEq, Prod.mk.injEq] at h
    exact ⟨h.1.symm.trans (by rw [ha, hb]), h.2.symm⟩

/-- C10: if an accepted result submission contains a tied set at position
`i`, the stored replacement `Set` rows record the match's player 2 as that
set's winner, and the accepted match's set counts are exactly those of the
submission with the tied set removed — the tied set counts for neither
side. -/
theorem tiedSet_stored_for_player2 (m : Match) (spp : Nat) (sets : List (Nat × Nat))
    (winnerId : Nat) (status : String) (m' : Match) (rows : List SetRow)
    (i a : Nat) (ht : sets[i]? = some (a, a))
    (hok : processResult m spp sets winnerId status = .ok (m', rows)) :
    rows[i]? = some ⟨i + 1, a, a, m.jugador2Id⟩ ∧
    m'.setsJ1 = setsJ1Count (sets.eraseIdx i) ∧
    m'.setsJ2 = setsJ2Count (sets.eraseIdx i) := by
  obtain ⟨hm', hrows⟩ := processResult_ok_inv m spp sets winnerId status m' rows hok
  refine ⟨?_, ?_, ?_⟩
  · rw [hrows, setsToCreate, setsToCreateAux_getElem? m sets 0 i, ht]
    simp
  · rw [hm']
    exact countP_eraseIdx_of_not _ sets i (a, a) ht (by simp)
  · rw [hm']
    exact countP_eraseIdx_of_not _ sets i (a, a) ht (by simp)

/-- C10 witness: the concrete accepted submission `[11-5, 11-7, 8-8]` on a
best-of-3 match between players 1 and 2. -/
theorem tiedSet_stored_for_player2_witness :
    (([(11, 5), (11, 7), (8, 8)] : List (Nat × Nat))[2]? = some (8, 8)) ∧
    ([⟨1, 11, 5, some 1⟩, ⟨2, 11, 7, some 1⟩, ⟨3, 8, 8, some 2⟩] :
        List SetRow)[2]? = some ⟨2 + 1, 8, 8, (mkPending 9 1 (some 2) 1 "Principal").jugador2Id⟩ ∧
    (⟨9, 1, some 2, 1, "Principal", some 1, 2, 0, "Finalizado"⟩ : Match).setsJ1 =
      setsJ1Count (([(11, 5), (11, 7), (8, 8)] : List (Nat × Nat)).eraseIdx 2) ∧
    (⟨9, 1, some 2, 1, "Principal", some 1, 2, 0, "Finalizado"⟩ : Match).setsJ2 =
      setsJ2Count (([(11, 5), (11, 7), (8, 8)] : List (Nat × Nat)).eraseIdx 2) :=
  ⟨by decide,
    tiedSet_stored_for_player2 (mkPending 9 1 (some 2) 1 "Principal") 3
      [(11, 5), (11, 7), (8, 8)] 1 "Finalizado"
      ⟨9, 1, some 2, 1, "Principal", some 1, 2, 0, "Finalizado"⟩
      [⟨1, 11, 5, some 1⟩, ⟨2, 11, 7, some 1⟩, ⟨3, 8, 8, some 2⟩]
      2 8 (by decide) (by rfl)⟩

/-! ### Finalization idempotence (C7) and deletion reversal (C8) -/

theorem awardSum_cons (r : TResult) (rs : List TResult) (p : Nat) :
    awardSum (r :: rs) p =
      (if r.jugadorId = p then (r.puntosGanados : Int) else 0) + awardSum rs p := by
  by_cases hp : r.jugadorId = p
  · simp [awardSum, List.filter_cons, hp]
  · simp [awardSum, List.filter_cons, hp]

theorem applyAwards_apply (rs : List TResult) :
    ∀ (pts : Nat → Int) (p : Nat), applyAwards pts rs p = pts p + awardSum rs p := by
  induction rs with
  | nil => intro pts p; simp [applyAwards, awardSum]
  | cons r rs ih =>
    intro pts p
    simp only [applyAwards, List.foldl_cons] at *
    rw [ih, awardSum_cons]
    by_cases hp : p = r.jugadorId
    · simp only [if_pos hp, if_pos hp.symm]
      ring
    · simp only [if_neg hp, if_neg (Ne.symm hp)]
      ring

theorem applyRemovals_apply (rs : List TResult) :
    ∀ (pts : Nat → Int) (p : Nat), applyRemovals pts rs p = pts p - awardSum rs p := by
  induction rs with
  | nil => intro pts p; simp [applyRemovals, awardSum]
  | cons r rs ih =>
    intro pts p
    simp only [applyRemovals, List.foldl_cons] at *
    rw [ih, awardSum_cons]
    by_cases hp : p = r.jugadorId
    · simp only [if_pos hp, if_pos hp.symm]
      ring
    · simp only [if_neg hp, if_neg (Ne.symm hp)]
      ring

/-- C7: finalization is idempotent — a second invocation finds the
tournament already `Finalizado` and returns without creating result rows,
awarding points, or touching any state. -/
theorem finalize_idempotent (s : TState) :
    finalizeTournament (finalizeTournament s) = finalizeTournament s := by
  by_cases h : s.estado = "Finalizado"
  · simp [finalizeTournament, h]
  · simp [finalizeTournament, h]

/-- C8: deleting a tournament that has result rows decrements each player's
cumulative points by exactly the `puntosGanados` recorded for that player
and deletes the rows; hence finalizing a tournament and then (force-)
deleting it restores every player's points to their pre-finalization
value. -/
theorem delete_reverses_finalize (s : TState)
    (hne : s.estado ≠ "Finalizado") (h0 : s.results = []) :
    (∀ (t : TState) (p : Nat),
        (deleteTournament t).puntos p = t.puntos p - awardSum t.results p ∧
        (deleteTournament t).results = []) ∧
    (∀ p, (deleteTournament (finalizeTournament s)).puntos p = s.puntos p) ∧
    (deleteTournament (finalizeTournament s)).results = [] := by
  refine ⟨fun t p => ⟨applyRemovals_apply t.results t.puntos p, rfl⟩, fun p => ?_, rfl⟩
  simp only [deleteTournament, finalizeTournament, if_neg hne, h0, List.nil_append]
  rw [applyRemovals_apply, applyAwards_apply]
  ring

/-- C8 witness: a two-player tournament with one finished match, all points
initially 0. -/
theorem delete_reverses_finalize_witness :
    (TState.mk "En curso" [⟨1, 1, some 2, 1, "Principal", some 1, 2, 0, "Finalizado"⟩]
        [] fun _ => 0).estado ≠ "Finalizado" ∧
    (deleteTournament (finalizeTournament
        (TState.mk "En curso" [⟨1, 1, some 2, 1, "Principal", some 1, 2, 0, "Finalizado"⟩]
          [] fun _ => 0))).puntos 1 =
      (TState.mk "En curso" [⟨1, 1, some 2, 1, "Principal", some 1, 2, 0, "Finalizado"⟩]
        [] fun _ => 0).puntos 1 :=
  ⟨by decide,
    (delete_reverses_finalize
      (TState.mk "En curso" [⟨1, 1, some 2, 1, "Principal", some 1, 2, 0, "Finalizado"⟩]
        [] fun _ => 0) (by decide) rfl).2.1 1⟩

/-! ### Standings calculation (C2) -/

theorem winStep_mem (acc : List Nat) (m : Match) (p : Nat) :
    p ∈ winStep acc m ↔ p ∈ acc ∨ m.ganadorId = some p := by
  unfold winStep
  cases hg : m.ganadorId with
  | none => simp
  | some g =>
    by_cases hm : g ∈ acc
    · simp only [if_pos hm, Option.some.injEq]
      constructor
      · exact fun h => Or.inl h
      · rintro (h | h)
        · exact h
        · rw [h] at hm; exact hm
    · simp only [if_neg hm, List.mem_append, List.mem_singleton, Option.some.injEq]
      exact or_congr Iff.rfl eq_comm

theorem winStep_nodup (acc : List Nat) (m : Match) (h : acc.Nodup) :
    (winStep acc m).Nodup := by
  unfold winStep
  cases m.ganadorId with
  | none => exact h
  | some g =>
    by_cases hm : g ∈ acc
    · simpa [hm] using h
    · simp [hm, List.nodup_append, h, List.Disjoint]
      intro a ha hag
      exact hm (hag ▸ ha)

theorem winnersFoldl_nodup (ms : List Match) :
    ∀ acc : List Nat, acc.Nodup → (ms.foldl winStep acc).Nodup := by
  induction ms with
  | nil => exact fun acc h => h
  | cons m ms ih => exact fun acc h => ih (winStep acc m) (winStep_nodup acc m h)

theorem winnersFoldl_mem (ms : List Match) :
    ∀ (acc : List Nat) (p : Nat),
      p ∈ ms.foldl winStep acc ↔ p ∈ acc ∨ ∃ m ∈ ms, m.ganadorId = some p := by
  induction ms with
  | nil => simp
  | cons m ms ih =>
    intro acc p
    rw [List.foldl_cons, ih (winStep acc m) p, winStep_mem]
    simp only [List.mem_cons]
    constructor
    · rintro ((h | h) | ⟨m2, hm2, hg⟩)
      · exact Or.inl h
      · exact Or.inr ⟨m, Or.inl rfl, h⟩
      · exact Or.inr ⟨m2, Or.inr hm2, hg⟩
    · rintro (h | ⟨m2, (h2 | h2), hg⟩)
      · exact Or.inl (Or.inl h)
      · exact Or.inl (Or.inr (h2 ▸ hg))
      · exact Or.inr ⟨m2, h2, hg⟩

theorem winnersOrder_nodup (ms : List Match) : (winnersOrder ms).Nodup :=
  winnersFoldl_nodup ms [] List.nodup_nil

theorem winnersOrder_mem (ms : List Match) (p : Nat) :
    p ∈ winnersOrder ms ↔ ∃ m ∈ ms, m.ganadorId = some p := by
  rw [winnersOrder, winnersFoldl_mem]
  simp

theorem insertWinsDesc_perm (x : Nat × Nat) (l : List (Nat × Nat)) :
    (insertWinsDesc x l).Perm (x :: l) := by
  induction l with
  | nil => exact List.Perm.refl _
  | cons y l ih =>
    unfold insertWinsDesc
    by_cases h : x.2 < y.2
    · rw [if_pos h]
      exact (ih.cons y).trans (List.Perm.swap x y l)
    · rw [if_neg h]

theorem sortWinsDesc_perm (l : List (Nat × Nat)) : (sortWinsDesc l).Perm l := by
  induction l with
  | nil => exact List.Perm.refl _
  | cons x l ih => exact (insertWinsDesc_perm x (sortWinsDesc l)).trans (ih.cons x)

theorem insertWinsDesc_sorted (x : Nat × Nat) (l : List (Nat × Nat))
    (h : l.Pairwise fun a b => b.2 ≤ a.2) :
    (insertWinsDesc x l).Pairwise fun a b => b.2 ≤ a.2 := by
  induction l with
  | nil => simp [insertWinsDesc]
  | cons y l ih =>
    rw [List.pairwise_cons] at h
    obtain ⟨hy, hl⟩ := h
    unfold insertWinsDesc
    by_cases hc : x.2 < y.2
    · rw [if_pos hc, List.pairwise_cons]
      refine ⟨fun z hz => ?_, ih hl⟩
      rcases List.mem_cons.mp ((insertWinsDesc_perm x l).mem_iff.mp hz) with h2 | h2
      · exact h2 ▸ Nat.le_of_lt hc
      · exact hy z h2
    · rw [if_neg hc, List.pairwise_cons]
      refine ⟨fun z hz => ?_, List.pairwise_cons.mpr ⟨hy, hl⟩⟩
      rcases List.mem_cons.mp hz with h2 | h2
      · exact h2 ▸ Nat.le_of_not_lt hc
      · exact le_trans (hy z h2) (Nat.le_of_not_lt hc)

theorem sortWinsDesc_sorted (l : List (Nat × Nat)) :
    (sortWinsDesc l).Pairwise fun a b => b.2 ≤ a.2 := by
  induction l with
  | nil => simp [sortWinsDesc]
  | cons x l ih => exact insertWinsDesc_sorted x (sortWinsDesc l) ih

theorem insertRondaDesc_perm (x : Match) (l : List Match) :
    (insertRondaDesc x l).Perm (x :: l) := by
  induction l with
  | nil => exact List.Perm.refl _
  | cons y l ih =>
    unfold insertRondaDesc
    by_cases h : x.ronda < y.ronda
    · rw [if_pos h]
      exact (ih.cons y).trans (List.Perm.swap x y l)
    · rw [if_neg h]

theorem sortRondaDesc_perm (l : List Match) : (sortRondaDesc l).Perm l := by
  induction l with
  | nil => exact List.Perm.refl _
  | cons x l ih => exact (insertRondaDesc_perm x (sortRondaDesc l)).trans (ih.cons x)

theorem countWins_sortRondaDesc (ms : List Match) (p : Nat) :
    countWins (sortRondaDesc ms) p = countWins ms p :=
  (sortRondaDesc_perm ms).countP_eq _

theorem assignPositions_length : ∀ (i : Nat) (l : List (Nat × Nat)),
    (assignPositions i l).length = l.length := by
  intro i l
  induction l generalizing i with
  | nil => rfl
  | cons pw l ih => simp [assignPositions, ih]

theorem assignPositions_map_pos : ∀ (i : Nat) (l : List (Nat × Nat)),
    (assignPositions i l).map TResult.posicionFinal = List.range' i l.length := by
  intro i l
  induction l generalizing i with
  | nil => rfl
  | cons pw l ih => simp [assignPositions, ih, List.range'_succ]

theorem assignPositions_map_jug : ∀ (i : Nat) (l : List (Nat × Nat)),
    (assignPositions i l).map TResult.jugadorId = l.map Prod.fst := by
  intro i l
  induction l generalizing i with
  | nil => rfl
  | cons pw l ih => simp [assignPositions, ih]

theorem assignPositions_points : ∀ (i : Nat) (l : List (Nat × Nat)) (r : TResult),
    r ∈ assignPositions i l → r.puntosGanados = calculatePoints r.posicionFinal := by
  intro i l
  induction l generalizing i with
  | nil => intro r hr; simp [assignPositions] at hr
  | cons pw l ih =>
    intro r hr
    rcases List.mem_cons.mp hr with h | h
    · rw [h]
    · exact ih (i + 1) r h

theorem assignPositions_jug_mem : ∀ (i : Nat) (l : List (Nat × Nat)) (r : TResult),
    r ∈ assignPositions i l → r.jugadorId ∈ l.map Prod.fst := by
  intro i l r hr
  have : r.jugadorId ∈ (assignPositions i l).map TResult.jugadorId :=
    List.mem_map_of_mem TResult.jugadorId hr
  rwa [assignPositions_map_jug] at this

theorem assignPositions_pairwise (R : Nat → Nat → Prop) :
    ∀ (i : Nat) (l : List (Nat × Nat)), (l.Pairwise fun a b => R a.1 b.1) →
      (assignPositions i l).Pairwise fun r1 r2 => R r1.jugadorId r2.jugadorId := by
  intro i l
  induction l generalizing i with
  | nil => intro _; simp [assignPositions]
  | cons pw l ih =>
    intro h
    rw [List.pairwise_cons] at h
    obtain ⟨hpw, hl⟩ := h
    rw [assignPositions, List.pairwise_cons]
    refine ⟨fun r2 hr2 => ?_, ih (i + 1) hl⟩
    rcases List.mem_map.mp (assignPositions_jug_mem (i + 1) l r2 hr2) with ⟨b, hb, hb2⟩
    exact hb2 ▸ hpw b hb

theorem count_filter_of_nodup_map {α : Type} (f : α → Nat) (l : List α)
    (h : (l.map f).Nodup) (p : Nat) :
    (l.filter fun x => f x = p).length = if p ∈ l.map f then 1 else 0 := by
  induction l with
  | nil => simp
  | cons x l ih =>
    rw [List.map_cons, List.nodup_cons] at h
    obtain ⟨hx, hl⟩ := h
    by_cases hc : f x = p
    · have hnp : p ∉ l.map f := hc ▸ hx
      simp [List.filter_cons, hc, ih hl, hnp]
    · have hc2 : ¬ p = f x := fun hp => hc hp.symm
      simp [List.filter_cons, hc, ih hl, hc2]

theorem filter_eq_singleton_of_nodup_map {α : Type} [DecidableEq α] (f : α → Nat)
    (l : List α) (h : (l.map f).Nodup) (x : α) (hx : x ∈ l) :
    l.filter (fun y => f y = f x) = [x] := by
  induction l with
  | nil => simp at hx
  | cons z l ih =>
    rw [List.map_cons, List.nodup_cons] at h
    obtain ⟨hz, hl⟩ := h
    rcases List.mem_cons.mp hx with h1 | h1
    · subst h1
      rw [List.filter_cons, if_pos (by simp)]
      have : l.filter (fun y => f y = f x) = [] := by
        rw [List.filter_eq_nil_iff]
        intro a ha hfa
        exact hz ((by simpa using hfa : f a = f x) ▸ List.mem_map_of_mem f ha)
      rw [this]
    · have hfz : ¬ f z = f x := fun he => hz (he ▸ List.mem_map_of_mem f h1)
      rw [List.filter_cons, if_neg (by simpa using hfz)]
      exact ih hl h1

theorem awardSum_of_unique (rs : List TResult)
    (h : (rs.map TResult.jugadorId).Nodup) (r : TResult) (hr : r ∈ rs) :
    awardSum rs r.jugadorId = (r.puntosGanados : Int) := by
  rw [awardSum, filter_eq_singleton_of_nodup_map TResult.jugadorId rs h r hr]
  simp

theorem awardSum_of_absent (rs : List TResult) (p : Nat)
    (h : p ∉ rs.map TResult.jugadorId) : awardSum rs p = 0 := by
  rw [awardSum]
  have : rs.filter (fun r => r.jugadorId = p) = [] := by
    rw [List.filter_eq_nil_iff]
    intro r hr hp
    exact h ((by simpa using hp : r.jugadorId = p) ▸ List.mem_map_of_mem TResult.jugadorId hr)
  simp [this]

theorem countWins_pos_iff (ms : List Match) (p : Nat) :
    0 < countWins ms p ↔ ∃ m ∈ ms, m.ganadorId = some p := by
  rw [countWins, List.countP_pos_iff]
  simp

/-- C2 counterexample: a finished 2-player tournament whose single match was
won by player 1.  Finalization persists a result row for player 1 only;
player 2 — a player of the tournament — gets no `TournamentResult` row, so
"one row per player of the tournament" fails. -/
theorem finalize_skips_winless_player :
    ((finalizeTournament
        (TState.mk "En curso" [⟨1, 1, some 2, 1, "Principal", some 1, 2, 0, "Finalizado"⟩]
          [] fun _ => 0)).results.map TResult.jugadorId = [1]) ∧
    (∃ m ∈ (TState.mk "En curso"
          [⟨1, 1, some 2, 1, "Principal", some 1, 2, 0, "Finalizado"⟩]
          [] fun _ => 0).partidos, m.jugador2Id = some 2) ∧
    ¬ (∃ r ∈ (finalizeTournament
        (TState.mk "En curso" [⟨1, 1, some 2, 1, "Principal", some 1, 2, 0, "Finalizado"⟩]
          [] fun _ => 0)).results, r.jugadorId = 2) := by
  refine ⟨by decide, by decide, by decide⟩

/-- C2 (amended): finalizing a non-finalized tournament persists exactly one
`TournamentResult` row per player who won at least one match (players
without a win get no row and no point change), with 1-based positions
`1..k` assigned in descending order of total win count over all matches of
the tournament, points awarded by the fixed table on the assigned position,
and each ranked player's cumulative points incremented by exactly the
awarded amount. -/
theorem finalize_ranks_winners (s : TState)
    (hne : s.estado ≠ "Finalizado") (h0 : s.results = []) :
    (∀ p, ((finalizeTournament s).results.filter fun r => r.jugadorId = p).length =
        if 0 < countWins s.partidos p then 1 else 0) ∧
    (finalizeTournament s).results.map TResult.posicionFinal =
      List.range' 1 (finalizeTournament s).results.length ∧
    ((finalizeTournament s).results.Pairwise fun r1 r2 =>
      countWins s.partidos r2.jugadorId ≤ countWins s.partidos r1.jugadorId) ∧
    (∀ r ∈ (finalizeTournament s).results,
      r.puntosGanados = calculatePoints r.posicionFinal) ∧
    (∀ r ∈ (finalizeTournament s).results,
      (finalizeTournament s).puntos r.jugadorId =
        s.puntos r.jugadorId + (r.puntosGanados : Int)) ∧
    (∀ p, countWins s.partidos p = 0 →
      (finalizeTournament s).puntos p = s.puntos p) := by
  have hres : (finalizeTournament s).results =
      assignPositions 1 (calculateFinalPositions (sortRondaDesc s.partidos)) := by
    simp [finalizeTournament, hne, h0]
  have hpts : (finalizeTournament s).puntos =
      applyAwards s.puntos
        (assignPositions 1 (calculateFinalPositions (sortRondaDesc s.partidos))) := by
    simp [finalizeTournament, hne, h0]
  rw [hres, hpts]
  rw [calculateFinalPositions]
  set ordered := sortRondaDesc s.partidos with hordered
  set pairs := (winnersOrder ordered).map (fun q => (q, countWins ordered q)) with hpairs
  set pos := sortWinsDesc pairs with hpos
  set rs := assignPositions 1 pos with hrs
  have hposperm : pos.Perm pairs := sortWinsDesc_perm pairs
  have hpairsfst : pairs.map Prod.fst = winnersOrder ordered := by
    rw [hpairs, List.map_map]
    have hcomp : (Prod.fst ∘ fun q : Nat => (q, countWins ordered q)) = id := rfl
    rw [hcomp, List.map_id]
  have hmapjug : rs.map TResult.jugadorId = pos.map Prod.fst :=
    assignPositions_map_jug 1 pos
  have hnodup : (rs.map TResult.jugadorId).Nodup := by
    rw [hmapjug]
    exact ((hposperm.map Prod.fst).nodup_iff).mpr (hpairsfst ▸ winnersOrder_nodup ordered)
  have hmem : ∀ p, p ∈ rs.map TResult.jugadorId ↔ 0 < countWins s.partidos p := by
    intro p
    rw [hmapjug, (hposperm.map Prod.fst).mem_iff, hpairsfst, winnersOrder_mem,
      ← countWins_sortRondaDesc s.partidos p, countWins_pos_iff]
  refine ⟨?_, ?_, ?_, ?_, ?_, ?_⟩
  · intro p
    rw [count_filter_of_nodup_map TResult.jugadorId rs hnodup p]
    exact if_congr (hmem p) rfl rfl
  · rw [assignPositions_map_pos, assignPositions_length]
  · have hval : ∀ pw ∈ pos, pw.2 = countWins s.partidos pw.1 := by
      intro pw hpw
      rcases List.mem_map.mp (hposperm.mem_iff.mp hpw) with ⟨q, _, he⟩
      rw [← he]
      exact countWins_sortRondaDesc s.partidos q
    have hsorted2 : pos.Pairwise
        (fun a b => countWins s.partidos b.1 ≤ countWins s.partidos a.1) :=
      (sortWinsDesc_sorted pairs).imp_of_mem fun ha hb hr => by
        rw [← hval _ ha, ← hval _ hb]; exact hr
    exact assignPositions_pairwise
      (fun u v => countWins s.partidos v ≤ countWins s.partidos u) 1 pos hsorted2
  · exact fun r hr => assignPositions_points 1 pos r hr
  · intro r hr
    rw [applyAwards_apply, awardSum_of_unique rs hnodup r hr]
  · intro p hw
    rw [applyAwards_apply, awardSum_of_absent rs p, add_zero]
    rw [hmem p, hw]
    exact lt_irrefl 0

/-- C2 witness: the concrete one-match tournament, instantiating the
one-row-per-winner count at player 1. -/
theorem finalize_ranks_winners_witness :
    (TState.mk "En curso" [⟨1, 1, some 2, 1, "Principal", some 1, 2, 0, "Finalizado"⟩]
        [] fun _ => 0).estado ≠ "Finalizado" ∧
    (((finalizeTournament
        (TState.mk "En curso" [⟨1, 1, some 2, 1, "Principal", some 1, 2, 0, "Finalizado"⟩]
          [] fun _ => 0)).results.filter fun r => r.jugadorId = 1).length =
      if 0 < countWins (TState.mk "En curso"
          [⟨1, 1, some 2, 1, "Principal", some 1, 2, 0, "Finalizado"⟩]
          [] fun _ => 0).partidos 1 then 1 else 0) :=
  ⟨by decide,
    (finalize_ranks_winners
      (TState.mk "En curso" [⟨1, 1, some 2, 1, "Principal", some 1, 2, 0, "Finalizado"⟩]
        [] fun _ => 0) (by decide) rfl).1 1⟩

/-! ### Progression (C6) -/

theorem pairWinners_length (t r : Nat) (f : String) :
    ∀ ws : List Nat, (pairWinners t r f ws).length = (ws.length + 1) / 2
  | [] => by simp [pairWinners]
  | [w] => by simp [pairWinners]
  | w1 :: w2 :: rest => by
    simp only [pairWinners, List.length_cons]
    rw [pairWinners_length t r f rest]
    omega

theorem pairWinners_get (t r : Nat) (f : String) :
    ∀ (ws : List Nat) (i p q : Nat), ws[2 * i]? = some p → ws[2 * i + 1]? = some q →
      (pairWinners t r f ws)[i]? = some (mkPending t p (some q) r f)
  | [], i, p, q => by simp
  | [w], i, p, q => by
    intro h1 h2
    have hlen : 2 * i + 1 < ([w] : List Nat).length := by
      rcases List.getElem?_eq_some.mp h2 with ⟨hh, _⟩
      exact hh
    simp at hlen
  | w1 :: w2 :: rest, i, p, q => by
    intro h1 h2
    cases i with
    | zero =>
      simp only [Nat.mul_zero, List.getElem?_cons_zero, Option.some.injEq] at h1
      simp only [Nat.mul_zero, Nat.zero_add, List.getElem?_cons_succ,
        List.getElem?_cons_zero, Option.some.injEq] at h2
      subst h1; subst h2
      simp [pairWinners]
    | succ j =>
      have e1 : 2 * (j + 1) = (2 * j + 1) + 1 := by ring
      have e2 : 2 * (j + 1) + 1 = (2 * j + 1 + 1) + 1 := by ring
      rw [e1, List.getElem?_cons_succ, List.getElem?_cons_succ] at h1
      rw [e2, List.getElem?_cons_succ, List.getElem?_cons_succ] at h2
      rw [pairWinners, List.getElem?_cons_succ]
      exact pairWinners_get t r f rest j p q h1 h2

theorem pairWinners_bye (t r : Nat) (f : String) :
    ∀ (ws : List Nat) (p : Nat), ws.length % 2 = 1 → ws[ws.length - 1]? = some p →
      (pairWinners t r f ws)[ws.length / 2]? = some (mkBye t p r f)
  | [], p => by intro h; simp at h
  | [w], p => by
    intro _ h2
    simp only [List.length_singleton, Nat.sub_self, List.getElem?_cons_zero,
      Option.some.injEq] at h2
    subst h2
    simp [pairWinners]
  | w1 :: w2 :: rest, p => by
    intro h1 h2
    have hl : rest.length % 2 = 1 := by
      simp only [List.length_cons] at h1
      omega
    have hr : 1 ≤ rest.length := by omega
    have e1 : (w1 :: w2 :: rest).length - 1 = ((rest.length - 1) + 1) + 1 := by
      simp only [List.length_cons]; omega
    rw [e1, List.getElem?_cons_succ, List.getElem?_cons_succ] at h2
    have e2 : (w1 :: w2 :: rest).length / 2 = rest.length / 2 + 1 := by
      simp only [List.length_cons]; omega
    rw [e2, pairWinners, List.getElem?_cons_succ]
    exact pairWinners_bye t r f rest p hl h2

/-- C6: when every match of a (tournament, round, phase) cohort is Finished
and the cohort has `k ≥ 2` winners (taken in match creation order), the
progression pass creates next-round matches in the same phase: winner pairs
`(0,1), (2,3), …` become Pending matches at `round+1`, a leftover winner of
an odd cohort gets one immediately-Finished bye-advance with a 1–0 margin,
and the batch has `⌈k/2⌉` matches; if any cohort match is not Finished,
no matches are created. -/
theorem nextRound_pairs_winners (tid r : Nat) (f : String) (ms ms2 : List Match)
    (hall : (cohortOf tid r f ms).all (fun m => m.estado = "Finalizado") = true)
    (hk : 2 ≤ (cohortWinners tid r f ms).length)
    (hnot : ¬ ((cohortOf tid r f ms2).all (fun m => m.estado = "Finalizado") = true)) :
    (∀ i p q, (cohortWinners tid r f ms)[2 * i]? = some p →
        (cohortWinners tid r f ms)[2 * i + 1]? = some q →
        (generateNextMatch tid r f ms)[i]? = some (mkPending tid p (some q) (r + 1) f)) ∧
    ((cohortWinners tid r f ms).length % 2 = 1 →
      ∀ p, (cohortWinners tid r f ms)[(cohortWinners tid r f ms).length - 1]? = some p →
        (generateNextMatch tid r f ms)[(cohortWinners tid r f ms).length / 2]? =
          some (mkBye tid p (r + 1) f)) ∧
    (generateNextMatch tid r f ms).length = ((cohortWinners tid r f ms).length + 1) / 2 ∧
    generateNextMatch tid r f ms2 = [] := by
  have hgen : generateNextMatch tid r f ms =
      pairWinners tid (r + 1) f (cohortWinners tid r f ms) := by
    rw [generateNextMatch, if_pos hall, if_neg (by omega)]
  refine ⟨?_, ?_, ?_, ?_⟩
  · intro i p q h1 h2
    rw [hgen]
    exact pairWinners_get tid (r + 1) f _ i p q h1 h2
  · intro hodd p hp
    rw [hgen]
    exact pairWinners_bye tid (r + 1) f _ p hodd hp
  · rw [hgen]
    exact pairWinners_length tid (r + 1) f _
  · rw [generateNextMatch, if_neg hnot]

/-- C6 witness: a finished 3-match cohort with winners `[5, 6, 7]` yields
the pending pair `5 vs 6` and a bye-advance for `7` at round 2, and an
unfinished cohort yields nothing. -/
theorem nextRound_pairs_winners_witness :
    ((cohortOf 1 1 "Principal"
        [⟨1, 5, some 8, 1, "Principal", some 5, 2, 0, "Finalizado"⟩,
         ⟨1, 6, some 9, 1, "Principal", some 6, 2, 1, "Finalizado"⟩,
         ⟨1, 7, some 10, 1, "Principal", some 7, 2, 0, "Finalizado"⟩]).all
      (fun m => m.estado = "Finalizado") = true) ∧
    (generateNextMatch 1 1 "Principal"
        [⟨1, 5, some 8, 1, "Principal", some 5, 2, 0, "Finalizado"⟩,
         ⟨1, 6, some 9, 1, "Principal", some 6, 2, 1, "Finalizado"⟩,
         ⟨1, 7, some 10, 1, "Principal", some 7, 2, 0, "Finalizado"⟩])[0]? =
      some (mkPending 1 5 (some 6) 2 "Principal") ∧
    (generateNextMatch 1 1 "Principal"
        [⟨1, 5, some 8, 1, "Principal", some 5, 2, 0, "Finalizado"⟩,
         ⟨1, 6, some 9, 1, "Principal", some 6, 2, 1, "Finalizado"⟩,
         ⟨1, 7, some 10, 1, "Principal", some 7, 2, 0, "Finalizado"⟩])[(cohortWinners 1 1 "Principal"
        [⟨1, 5, some 8, 1, "Principal", some 5, 2, 0, "Finalizado"⟩,
         ⟨1, 6, some 9, 1, "Principal", some 6, 2, 1, "Finalizado"⟩,
         ⟨1, 7, some 10, 1, "Principal", some 7, 2, 0, "Finalizado"⟩]).length / 2]? =
      some (mkBye 1 7 2 "Principal") ∧
    generateNextMatch 1 1 "Principal" [mkPending 1 1 (some 2) 1 "Principal"] = [] := by
  have T := nextRound_pairs_winners 1 1 "Principal"
    [⟨1, 5, some 8, 1, "Principal", some 5, 2, 0, "Finalizado"⟩,
     ⟨1, 6, some 9, 1, "Principal", some 6, 2, 1, "Finalizado"⟩,
     ⟨1, 7, some 10, 1, "Principal", some 7, 2, 0, "Finalizado"⟩]
    [mkPending 1 1 (some 2) 1 "Principal"] (by decide) (by decide) (by decide)
  exact ⟨by decide, T.1 0 5 6 (by decide) (by decide),
    T.2.1 (by decide) 7 (by decide), T.2.2.2⟩

/-! ### The winner invariant over reachable states (C3) -/

theorem finishedOk_mkPending (t j1 : Nat) (j2 : Option Nat) (r : Nat) (f : String) :
    FinishedOk (mkPending t j1 j2 r f) := by
  intro h
  have h2 : ("Pendiente" : String) = "Finalizado" := h
  exact absurd h2 (by decide)

theorem finishedOk_mkBye (t j1 r : Nat) (f : String) : FinishedOk (mkBye t j1 r f) :=
  fun _ => ⟨j1, rfl, Or.inl rfl⟩

theorem elimPairs_finishedOk (t : Nat) :
    ∀ slots : List (Option Nat), ∀ m ∈ elimPairs t slots, FinishedOk m
  | some p :: some q :: rest, m, hm => by
    rcases List.mem_cons.mp hm with h | h
    · exact h ▸ finishedOk_mkPending t p (some q) 1 "Principal"
    · exact elimPairs_finishedOk t rest m h
  | some p :: none :: rest, m, hm => by
    rcases List.mem_cons.mp hm with h | h
    · exact h ▸ finishedOk_mkBye t p 1 "Principal"
    · exact elimPairs_finishedOk t rest m h
  | none :: x :: rest, m, hm => elimPairs_finishedOk t rest m hm
  | [some p], m, hm => by
    rcases List.mem_cons.mp hm with h | h
    · exact h ▸ finishedOk_mkBye t p 1 "Principal"
    · exact absurd h (by simp)
  | [none], m, hm => absurd hm (by simp [elimPairs])
  | [], m, hm => absurd hm (by simp [elimPairs])

theorem manualPairs_finishedOk (t : Nat) :
    ∀ slots : List (Option Nat), ∀ m ∈ manualPairs t slots, FinishedOk m
  | some p :: some q :: rest, m, hm => by
    rcases List.mem_cons.mp hm with h | h
    · exact h ▸ finishedOk_mkPending t p (some q) 1 "Principal"
    · exact manualPairs_finishedOk t rest m h
  | some p :: none :: rest, m, hm => manualPairs_finishedOk t rest m hm
  | none :: b :: rest, m, hm => manualPairs_finishedOk t rest m hm
  | [_], m, hm => absurd hm (by simp [manualPairs])
  | [], m, hm => absurd hm (by simp [manualPairs])

theorem roundMatchesRR_finishedOk (t r : Nat) (l : List (Option Nat)) :
    ∀ m ∈ roundMatchesRR t r l, FinishedOk m := by
  intro m hm
  rcases List.mem_filterMap.mp hm with ⟨i, _, hf⟩
  split at hf
  · cases hf
    exact finishedOk_mkPending t _ _ r "Principal"
  · cases hf

theorem rrRounds_finishedOk (t : Nat) :
    ∀ (fuel r : Nat) (l : List (Option Nat)), ∀ m ∈ rrRounds t l r fuel, FinishedOk m
  | 0, r, l, m, hm => absurd hm (by simp [rrRounds])
  | fuel + 1, r, l, m, hm => by
    rcases List.mem_append.mp hm with h | h
    · exact roundMatchesRR_finishedOk t r l m h
    · exact rrRounds_finishedOk t fuel (r + 1) (rotateOnce l) m h

theorem generateRoundRobinBracket_finishedOk (ps : List Nat) (t : Nat) :
    ∀ m ∈ generateRoundRobinBracket ps t, FinishedOk m := by
  intro m hm
  exact rrRounds_finishedOk t _ _ _ m hm

theorem pairWinners_finishedOk (t r : Nat) (f : String) :
    ∀ ws : List Nat, ∀ m ∈ pairWinners t r f ws, FinishedOk m
  | [], m, hm => absurd hm (by simp [pairWinners])
  | [w], m, hm => by
    rcases List.mem_cons.mp hm with h | h
    · exact h ▸ finishedOk_mkBye t w r f
    · exact absurd h (by simp)
  | w1 :: w2 :: rest, m, hm => by
    rcases List.mem_cons.mp hm with h | h
    · exact h ▸ finishedOk_mkPending t w1 (some w2) r f
    · exact pairWinners_finishedOk t r f rest m h

theorem generateNextMatch_finishedOk (tid r : Nat) (f : String) (ms : List Match) :
    ∀ m ∈ generateNextMatch tid r f ms, FinishedOk m := by
  intro m hm
  rw [generateNextMatch] at hm
  split at hm
  · split at hm
    · exact absurd hm (by simp)
    · exact pairWinners_finishedOk tid (r + 1) f _ m hm
  · exact absurd hm (by simp)

theorem validateResult_ok_winner (m : Match) (spp : Nat) (sets : List (Nat × Nat))
    (w a b : Nat) (h : validateResult m spp sets w = .ok (a, b)) :
    w = m.jugador1Id ∨ some w = m.jugador2Id := by
  unfold validateResult at h
  split_ifs at h with h1 h2 h3 h4 h5 h6 h7 h8 h9
  all_goals
    rcases not_and_or.mp h2 with hc | hc
  all_goals first
    | exact Or.inl (not_not.mp hc)
    | exact Or.inr (not_not.mp hc)

theorem reachable_all_finishedOk (tid spp : Nat) (s : EState) (h : Reachable tid spp s) :
    ∀ m ∈ s.partidos, FinishedOk m := by
  induction h with
  | init => intro m hm; exact absurd hm (by simp)
  | step s1 s2 hreach hstep ih =>
    cases hstep with
    | genElim ps slots hpend hn hperm =>
      intro m hm
      rcases List.mem_append.mp hm with h2 | h2
      · exact ih m h2
      · exact elimPairs_finishedOk tid slots m h2
    | genRR ps hpend hn =>
      intro m hm
      rcases List.mem_append.mp hm with h2 | h2
      · exact ih m h2
      · exact generateRoundRobinBracket_finishedOk ps tid m h2
    | genManual slots hpend =>
      intro m hm
      rcases List.mem_append.mp hm with h2 | h2
      · exact ih m h2
      · exact manualPairs_finishedOk tid slots m h2
    | startMatch i m0 him hp =>
      intro m hm
      rcases List.mem_or_eq_of_mem_set hm with h2 | h2
      · exact ih m h2
      · subst h2
        intro hfin
        have h4 : ("En curso" : String) = "Finalizado" := hfin
        exact absurd h4 (by decide)
    | recordResult i m0 sets w a b st him hst hval =>
      intro m hm
      rcases List.mem_append.mp hm with h2 | h2
      · rcases List.mem_or_eq_of_mem_set h2 with h3 | h3
        · exact ih m h3
        · subst h3
          exact fun _ => ⟨w, rfl,
            validateResult_ok_winner m0 s1.setsPorPartido sets w a b hval⟩
      · exact generateNextMatch_finishedOk tid m0.ronda m0.fase _ m h2

theorem elimSlots_two : elimSlots 2 = 2 := by
  have h1 : Nat.clog 2 2 = Nat.clog 2 1 + 1 := Nat.clog_of_two_le (by norm_num) (by norm_num)
  simp [elimSlots, h1, Nat.clog_one_right]

theorem padPlayers_two : padPlayers [1, 2] = [some 1, some 2] := by
  simp [padPlayers, elimSlots_two]

/-- C3 counterexample: a reachable state in which a match has its winner set
while it is NOT Finished — the result route stores the caller-supplied
status (here `"En curso"`) together with the winner, refuting "winner
reference is set only when the match is Finished". -/
theorem winner_set_on_unfinished_match :
    Reachable 1 3
      ⟨"En curso", 3, [⟨1, 1, some 2, 1, "Principal", some 1, 2, 0, "En curso"⟩]⟩ ∧
    (⟨1, 1, some 2, 1, "Principal", some 1, 2, 0, "En curso"⟩ : Match) ∈
      (⟨"En curso", 3,
        [⟨1, 1, some 2, 1, "Principal", some 1, 2, 0, "En curso"⟩]⟩ : EState).partidos ∧
    (⟨1, 1, some 2, 1, "Principal", some 1, 2, 0, "En curso"⟩ : Match).ganadorId = some 1 ∧
    (⟨1, 1, some 2, 1, "Principal", some 1, 2, 0, "En curso"⟩ : Match).estado ≠
      "Finalizado" := by
  refine ⟨?_, by decide, rfl, by decide⟩
  exact Reachable.step _ _
    (Reachable.step _ _ Reachable.init
      (Step.genElim ⟨"Pendiente", 3, []⟩ [1, 2] [some 1, some 2] rfl (by decide)
        (by rw [padPlayers_two])))
    (Step.recordResult ⟨"En curso", 3, [] ++ elimPairs 1 [some 1, some 2]⟩ 0
      (mkPending 1 1 (some 2) 1 "Principal") [(11, 5), (11, 7)] 1 2 0 "En curso" rfl
      (Or.inr (Or.inl rfl)) rfl)

/-- C3 (amended): in every reachable state, every Finished match carries a
winner who is one of its two players (the sole player, for a bye); however
— as the counterexample shows — a winner may also be recorded on a
non-Finished match, because result submission stores the caller-supplied
status alongside the winner. -/
theorem reachable_finished_has_winner (tid spp : Nat) (s : EState)
    (h : Reachable tid spp s) :
    ∀ m ∈ s.partidos, m.estado = "Finalizado" →
      ∃ w, m.ganadorId = some w ∧ (w = m.jugador1Id ∨ some w = m.jugador2Id) :=
  reachable_all_finishedOk tid spp s h

/-- C3 witness: in the reachable state after elimination generation for
players `[1, 2, 3]` with shuffle outcome `[1, 2, 3, BYE]`, the synthesized
bye-advance match is Finished and its winner is its sole player. -/
theorem reachable_finished_has_winner_witness :
    Reachable 1 3 ⟨"En curso", 3, elimPairs 1 [some 1, some 2, some 3, none]⟩ ∧
    (∃ w, (mkBye 1 3 1 "Principal").ganadorId = some w ∧
      (w = (mkBye 1 3 1 "Principal").jugador1Id ∨
        some w = (mkBye 1 3 1 "Principal").jugador2Id)) := by
  have hreach : Reachable 1 3 ⟨"En curso", 3, elimPairs 1 [some 1, some 2, some 3, none]⟩ :=
    Reachable.step _ _ Reachable.init
      (Step.genElim ⟨"Pendiente", 3, []⟩ [1, 2, 3] [some 1, some 2, some 3, none] rfl
        (by decide) (by rw [padPlayers_three]))
  exact ⟨hreach,
    reachable_finished_has_winner 1 3 _ hreach (mkBye 1 3 1 "Principal")
      (by decide) rfl⟩

/-! ### Round-robin schedule analysis (C5): basic list tools -/

theorem rotateOnce_length (l : List α) : (rotateOnce l).length = l.length := by
  cases l with
  | nil => rfl
  | cons x t =>
    cases t with
    | nil => rfl
    | cons y rest => simp [rotateOnce]

theorem rotIter_length (k : Nat) (l : List α) : (rotIter k l).length = l.length := by
  induction k generalizing l with
  | zero => rfl
  | succ j ih =>
    rw [rotIter, Function.iterate_succ_apply]
    exact (ih (rotateOnce l)).trans (rotateOnce_length l)

theorem rotateOnce_perm (l : List α) : (rotateOnce l).Perm l := by
  cases l with
  | nil => exact List.Perm.refl _
  | cons x t =>
    cases t with
    | nil => exact List.Perm.refl _
    | cons y rest =>
      simp only [rotateOnce]
      exact (List.perm_append_singleton y rest).cons x

theorem rotIter_perm (k : Nat) (l : List α) : (rotIter k l).Perm l := by
  induction k generalizing l with
  | zero => exact List.Perm.refl _
  | succ j ih =>
    rw [rotIter, Function.iterate_succ_apply]
    exact (ih (rotateOnce l)).trans (rotateOnce_perm l)

theorem rotateOnce_cons (e : α) (t : List α) :
    rotateOnce (e :: t) = e :: t.rotate 1 := by
  cases t with
  | nil => rfl
  | cons y rest =>
    simp only [rotateOnce]
    rw [List.rotate_cons_succ, List.rotate_zero]

theorem rotIter_cons (k : Nat) (e : α) (t : List α) :
    rotIter k (e :: t) = e :: t.rotate k := by
  induction k with
  | zero => rw [rotIter, Function.iterate_zero_apply, List.rotate_zero]
  | succ j ih =>
    rw [rotIter, Function.iterate_succ_apply']
    rw [rotIter] at ih
    rw [ih, rotateOnce_cons, List.rotate_rotate]

theorem rotIter_getElem? (l : List (Option Nat)) (m : Nat) (hm : l.length = m + 1)
    (r p : Nat) (hp : p < m + 1) :
    (rotIter r l)[p]? = l[origIdx m r p]? := by
  cases l with
  | nil => simp at hm
  | cons e t =>
    have ht : t.length = m := by simpa using hm
    rw [rotIter_cons]
    cases p with
    | zero => simp [origIdx]
    | succ j =>
      have hj : j < m := by omega
      have h0 : 0 < m := by omega
      rw [origIdx, if_neg (by omega)]
      have e1 : j + 1 - 1 + r = j + r := by omega
      rw [e1, List.getElem?_cons_succ, List.getElem?_cons_succ]
      have := List.get?_rotate (l := t) (n := r) (m := j) (by omega)
      rw [List.get?_eq_getElem?, List.get?_eq_getElem?] at this
      rw [this, ht]

theorem getElem?_inj_of_nodup {α : Type} (l : List α) (h : l.Nodup) {i j : Nat}
    {x : α} (hi : l[i]? = some x) (hj : l[j]? = some x) : i = j := by
  rcases List.getElem?_eq_some.mp hi with ⟨hi2, hival⟩
  rcases List.getElem?_eq_some.mp hj with ⟨hj2, hjval⟩
  exact (List.Nodup.getElem_inj_iff h).mp (hival.trans hjval.symm)

theorem countP_filterMap_eq {α β : Type} (f : α → Option β) (p : β → Bool) :
    ∀ L : List α, (L.filterMap f).countP p =
      L.countP fun x => match f x with | some y => p y | none => false := by
  intro L
  induction L with
  | nil => simp
  | cons x L ih =>
    rw [List.filterMap_cons]
    cases hf : f x with
    | none => simp [List.countP_cons, hf, ih]
    | some y => simp [List.countP_cons, hf, ih]

theorem countP_range_eq_one (k : Nat) (Q : Nat → Prop) [DecidablePred Q] (i0 : Nat)
    (h0 : i0 < k) (hq : Q i0) (huniq : ∀ i, i < k → Q i → i = i0) :
    (List.range k).countP (fun i => decide (Q i)) = 1 := by
  induction k with
  | zero => omega
  | succ j ih =>
    rw [List.range_succ, List.countP_append]
    by_cases hj : i0 = j
    · have hz : (List.range j).countP (fun i => decide (Q i)) = 0 := by
        rw [List.countP_eq_zero]
        intro i hi
        have hi2 := List.mem_range.mp hi
        simp only [decide_eq_true_eq]
        intro hQ
        have := huniq i (by omega) hQ
        omega
      simp [hz, hj ▸ hq]
    · have hnj : ¬ Q j := fun hQ => hj ((huniq j (by omega) hQ).symm ▸ rfl)
      rw [ih (by omega) (fun i hi hQ => huniq i (by omega) hQ)]
      simp [hnj]

theorem countP_range_eq_zero (k : Nat) (Q : Nat → Prop) [DecidablePred Q]
    (h : ∀ i, i < k → ¬ Q i) :
    (List.range k).countP (fun i => decide (Q i)) = 0 := by
  rw [List.countP_eq_zero]
  intro i hi
  simpa using h i (List.mem_range.mp hi)

theorem countP_range_all (k : Nat) (Q : Nat → Prop) [DecidablePred Q]
    (h : ∀ i, i < k → Q i) :
    (List.range k).countP (fun i => decide (Q i)) = k := by
  have := (List.countP_eq_length (p := fun i => decide (Q i)) (l := List.range k)).mpr
    (fun a ha => by simpa using h a (List.mem_range.mp ha))
  simpa using this

theorem sum_map_range_eq_one (g : Nat → Nat) (mm r0 : Nat) (h0 : r0 < mm)
    (h1 : g r0 = 1) (hz : ∀ r, r < mm → r ≠ r0 → g r = 0) :
    ((List.range mm).map g).sum = 1 := by
  induction mm with
  | zero => omega
  | succ j ih =>
    rw [List.range_succ, List.map_append, List.sum_append]
    by_cases hj : r0 = j
    · have hzero : ((List.range j).map g).sum = 0 := by
        rw [List.sum_eq_zero]
        intro x hx
        rcases List.mem_map.mp hx with ⟨r, hr, hval⟩
        have hr2 := List.mem_range.mp hr
        rw [← hval]
        exact hz r (by omega) (by omega)
      simp [hzero, hj ▸ h1]
    · rw [ih (by omega) (fun r hr hne => hz r (by omega) hne)]
      simp [hz j (by omega) (fun he => hj he.symm)]

theorem rrRounds_countP (t' : Nat) (p : Match → Bool) :
    ∀ (fuel r0 : Nat) (l : List (Option Nat)),
      (rrRounds t' l r0 fuel).countP p =
        ((List.range fuel).map
          (fun k => (roundMatchesRR t' (r0 + k) (rotIter k l)).countP p)).sum := by
  intro fuel
  induction fuel with
  | zero => intro r0 l; simp [rrRounds]
  | succ fu ih =>
    intro r0 l
    rw [rrRounds, List.countP_append, ih (r0 + 1) (rotateOnce l),
      List.range_succ_eq_map, List.map_cons, List.sum_cons, List.map_map]
    have hhead : roundMatchesRR t' (r0 + 0) (rotIter 0 l) = roundMatchesRR t' r0 l := by
      rw [Nat.add_zero]
      rfl
    rw [hhead]
    congr 1
    apply congrArg
    apply List.map_congr_left
    intro k _
    have e1 : r0 + 1 + k = r0 + (k + 1) := by omega
    have e2 : rotIter k (rotateOnce l) = rotIter (k + 1) l := by
      rw [rotIter, rotIter, Function.iterate_succ_apply]
    simp only [Function.comp, e1, e2, Nat.succ_eq_add_one]

theorem roundMatchesRR_ronda (t' r : Nat) (l : List (Option Nat)) :
    ∀ mm ∈ roundMatchesRR t' r l, mm.ronda = r := by
  intro mm hm
  rcases List.mem_filterMap.mp hm with ⟨i, _, hf⟩
  split at hf
  · cases hf; rfl
  · cases hf

theorem rrRounds_ronda (t' : Nat) :
    ∀ (fuel r0 : Nat) (l : List (Option Nat)), ∀ mm ∈ rrRounds t' l r0 fuel,
      r0 ≤ mm.ronda ∧ mm.ronda < r0 + fuel
  | 0, r0, l, mm, hm => absurd hm (by simp [rrRounds])
  | fu + 1, r0, l, mm, hm => by
    rcases List.mem_append.mp hm with h | h
    · rw [roundMatchesRR_ronda t' r0 l mm h]
      omega
    · have := rrRounds_ronda t' fu (r0 + 1) (rotateOnce l) mm h
      omega

theorem rrRounds_round_nonempty (t' : Nat) :
    ∀ (fuel r0 k : Nat) (l : List (Option Nat)), k < fuel →
      0 < (roundMatchesRR t' (r0 + k) (rotIter k l)).length →
      ∃ mm ∈ rrRounds t' l r0 fuel, mm.ronda = r0 + k
  | 0, r0, k, l, hk, _ => absurd hk (by omega)
  | fu + 1, r0, k, l, hk, hpos => by
    cases k with
    | zero =>
      have h0 : rotIter 0 l = l := rfl
      rw [h0, Nat.add_zero] at hpos
      rcases List.exists_mem_of_length_pos hpos with ⟨mm, hmm⟩
      refine ⟨mm, List.mem_append_left _ hmm, ?_⟩
      rw [Nat.add_zero]
      exact roundMatchesRR_ronda t' r0 l mm hmm
    | succ j =>
      have e2 : rotIter (j + 1) l = rotIter j (rotateOnce l) := by
        rw [rotIter, rotIter, Function.iterate_succ_apply]
      rw [e2] at hpos
      have e1 : r0 + (j + 1) = (r0 + 1) + j := by omega
      rw [e1] at hpos
      rcases rrRounds_round_nonempty t' fu (r0 + 1) j (rotateOnce l) (by omega) hpos
        with ⟨mm, hmem, hronda⟩
      exact ⟨mm, List.mem_append_right _ hmem, by omega⟩

theorem modeq_cancel_two (m r r' : Nat) (hm : m % 2 = 1)
    (h : (2 * r) % m = (2 * r') % m) (hr : r < m) (hr' : r' < m) : r = r' := by
  have hgcd : Nat.gcd m 2 = 1 := by
    have h2 : ¬ 2 ∣ m := by omega
    exact Nat.Coprime.gcd_eq_one ((Nat.coprime_comm).mp
      ((Nat.Prime.coprime_iff_not_dvd Nat.prime_two).mpr h2))
  have h3 : r % m = r' % m := Nat.ModEq.cancel_left_of_coprime hgcd h
  rwa [Nat.mod_eq_of_lt hr, Nat.mod_eq_of_lt hr'] at h3

theorem origIdx_zero (m r : Nat) : origIdx m r 0 = 0 := by simp [origIdx]

theorem origIdx_pos (m r p : Nat) (hp : p ≠ 0) :
    origIdx m r p = ((p - 1 + r) % m) + 1 := by simp [origIdx, hp]

theorem origIdx_eq_zero_iff (m r p : Nat) : origIdx m r p = 0 ↔ p = 0 := by
  constructor
  · intro h
    by_contra hp
    rw [origIdx_pos m r p hp] at h
    omega
  · intro h
    subst h
    exact origIdx_zero m r

theorem origIdx_bounds (m r p : Nat) (hm : 0 < m) (hp : p ≠ 0) :
    1 ≤ origIdx m r p ∧ origIdx m r p ≤ m := by
  rw [origIdx_pos m r p hp]
  have := Nat.mod_lt (p - 1 + r) hm
  omega

theorem origIdx_inj (m r i j z : Nat) (_hm : 0 < m) (hi1 : 1 ≤ i) (hi2 : i ≤ m)
    (hj1 : 1 ≤ j) (hj2 : j ≤ m) (hvi : origIdx m r i = z) (hvj : origIdx m r j = z) :
    i = j := by
  rw [origIdx_pos m r i (by omega)] at hvi
  rw [origIdx_pos m r j (by omega)] at hvj
  have he : (i - 1 + r) % m = (j - 1 + r) % m := by omega
  have hc : (i - 1) % m = (j - 1) % m := Nat.ModEq.add_right_cancel' r he
  rw [Nat.mod_eq_of_lt (by omega), Nat.mod_eq_of_lt (by omega)] at hc
  omega

theorem origIdx_solve (m r z : Nat) (hm : 0 < m) (hz1 : 1 ≤ z) (hz2 : z ≤ m) :
    ∃ p, 1 ≤ p ∧ p ≤ m ∧ origIdx m r p = z ∧
      ∀ q, q ≤ m → origIdx m r q = z → q = p := by
  have hmod : (z - 1 + m - r % m) % m < m := Nat.mod_lt _ hm
  have hrm : r % m < m := Nat.mod_lt r hm
  refine ⟨((z - 1 + m - r % m) % m) + 1, by omega, by omega, ?_, ?_⟩
  · rw [origIdx_pos _ _ _ (by omega)]
    have hsimp : (z - 1 + m - r % m) % m + 1 - 1 + r = (z - 1 + m - r % m) % m + r := by
      omega
    rw [hsimp]
    have step1 : ((z - 1 + m - r % m) % m + r) % m = (z - 1 + m - r % m + r) % m :=
      Nat.ModEq.add_right r (Nat.mod_modEq _ m)
    have step2 : (z - 1 + m - r % m + r) % m = (z - 1 + m - r % m + r % m) % m :=
      Nat.ModEq.add_left _ ((Nat.mod_modEq r m).symm)
    have e4 : z - 1 + m - r % m + r % m = z - 1 + m := by omega
    rw [step1, step2, e4, Nat.add_mod_right, Nat.mod_eq_of_lt (by omega)]
    omega
  · intro q hq hval
    have hq0 : q ≠ 0 := by
      intro h0
      rw [h0, origIdx_zero] at hval
      omega
    have hb := origIdx_bounds m r (((z - 1 + m - r % m) % m) + 1) hm (by omega)
    refine origIdx_inj m r q _ z hm (by omega) hq (by omega) (by omega) hval ?_
    -- recompute the value at the canonical position
    rw [origIdx_pos _ _ _ (by omega)]
    have hsimp : (z - 1 + m - r % m) % m + 1 - 1 + r = (z - 1 + m - r % m) % m + r := by
      omega
    rw [hsimp]
    have step1 : ((z - 1 + m - r % m) % m + r) % m = (z - 1 + m - r % m + r) % m :=
      Nat.ModEq.add_right r (Nat.mod_modEq _ m)
    have step2 : (z - 1 + m - r % m + r) % m = (z - 1 + m - r % m + r % m) % m :=
      Nat.ModEq.add_left _ ((Nat.mod_modEq r m).symm)
    have e4 : z - 1 + m - r % m + r % m = z - 1 + m := by omega
    rw [step1, step2, e4, Nat.add_mod_right, Nat.mod_eq_of_lt (by omega)]
    omega

theorem hitPair_swap (m u v r i : Nat) : hitPair m u v r i ↔ hitPair m v u r i := by
  unfold hitPair
  tauto

theorem hitPair_eu_zero (m v : Nat) (hm : m % 2 = 1) (hv1 : 1 ≤ v) (hv2 : v ≤ m) :
    ∃ r0, r0 < m ∧ hitPair m 0 v r0 0 ∧
      ∀ r i, r < m → i < (m + 1) / 2 → hitPair m 0 v r i → r = r0 ∧ i = 0 := by
  have hm0 : 0 < m := by omega
  refine ⟨v % m, Nat.mod_lt v hm0, ?_, ?_⟩
  · left
    refine ⟨origIdx_zero m (v % m), ?_⟩
    rw [Nat.sub_zero, origIdx_pos m _ m (by omega)]
    by_cases hvm : v = m
    · subst hvm
      rw [Nat.mod_self]
      have h8 : v - 1 + 0 = v - 1 := by omega
      rw [h8]
      have h9 : v - 1 < v := by omega
      rw [Nat.mod_eq_of_lt h9]
      omega
    · have hvlt : v < m := by omega
      rw [Nat.mod_eq_of_lt hvlt]
      have e : m - 1 + v = v - 1 + m := by omega
      rw [e, Nat.add_mod_right]
      have h9 : v - 1 < m := by omega
      rw [Nat.mod_eq_of_lt h9]
      omega
  · intro r i hr hi hhit
    have him : m - i ≠ 0 := by omega
    have hi0 : i = 0 := by
      rcases hhit with ⟨h1, _⟩ | ⟨_, h2⟩
      · exact (origIdx_eq_zero_iff m r i).mp h1
      · exact absurd ((origIdx_eq_zero_iff m r (m - i)).mp h2) him
    subst hi0
    refine ⟨?_, rfl⟩
    have hval : origIdx m r (m - 0) = v := by
      rcases hhit with ⟨_, h2⟩ | ⟨h1, _⟩
      · exact h2
      · rw [origIdx_zero] at h1
        omega
    rw [Nat.sub_zero, origIdx_pos m r m (by omega)] at hval
    have hval2 : (m - 1 + r) % m = v - 1 := by omega
    have harg : (m - 1 + r) % m = (v - 1) % m := by
      rw [hval2]
      have h9 : v - 1 < m := by omega
      rw [Nat.mod_eq_of_lt h9]
    have h5 : (m - 1 + r + 1) % m = (v - 1 + 1) % m := Nat.ModEq.add_right 1 harg
    have e6 : m - 1 + r + 1 = m + r := by omega
    have e7 : v - 1 + 1 = v := by omega
    rw [e6, e7, Nat.add_mod_left, Nat.mod_eq_of_lt hr] at h5
    exact h5

theorem hitPair_eu_pos (m u v : Nat) (hm : m % 2 = 1) (hu1 : 1 ≤ u) (hu2 : u ≤ m)
    (hv1 : 1 ≤ v) (hv2 : v ≤ m) (huv : u ≠ v) :
    ∃ r0 i0, r0 < m ∧ i0 < (m + 1) / 2 ∧ hitPair m u v r0 i0 ∧
      ∀ r i, r < m → i < (m + 1) / 2 → hitPair m u v r i → r = r0 ∧ i = i0 := by
  have hm3 : 3 ≤ m := by omega
  have hm0 : 0 < m := by omega
  set c := u + v with hc
  set r0 := ((m + 1) / 2 * c) % m with hr0def
  have hr0 : r0 < m := Nat.mod_lt _ hm0
  have H2 : (2 * r0) % m = c % m := by
    have s1 : (2 * r0) % m = (2 * ((m + 1) / 2 * c)) % m :=
      Nat.ModEq.mul_left 2 (Nat.mod_modEq _ m)
    have s2 : 2 * ((m + 1) / 2 * c) = (m + 1) * c := by
      rw [← Nat.mul_assoc]
      congr 1
      omega
    have s3 : ((m + 1) * c) % m = c % m := by
      have e : (m + 1) * c = c + m * c := by ring
      rw [e, Nat.add_mul_mod_self_left]
    rw [s1, s2, s3]
  set x := (u - 1 + m - r0) % m with hxdef
  set y := (v - 1 + m - r0) % m with hydef
  have hx : x < m := Nat.mod_lt _ hm0
  have hy : y < m := Nat.mod_lt _ hm0
  have HX : (x + r0) % m = u - 1 := by
    have s1 : (x + r0) % m = (u - 1 + m - r0 + r0) % m :=
      Nat.ModEq.add_right r0 (Nat.mod_modEq _ m)
    have s2 : u - 1 + m - r0 + r0 = u - 1 + m := by omega
    rw [s1, s2, Nat.add_mod_right, Nat.mod_eq_of_lt (by omega)]
  have HY : (y + r0) % m = v - 1 := by
    have s1 : (y + r0) % m = (v - 1 + m - r0 + r0) % m :=
      Nat.ModEq.add_right r0 (Nat.mod_modEq _ m)
    have s2 : v - 1 + m - r0 + r0 = v - 1 + m := by omega
    rw [s1, s2, Nat.add_mod_right, Nat.mod_eq_of_lt (by omega)]
  have HXY : x ≠ y := by
    intro he
    have : u - 1 = v - 1 := by rw [← HX, ← HY, he]
    omega
  have Hdvd : m ∣ (x + y + 2) := by
    have a1 : (x + r0) % m = (u - 1) % m := by
      rw [HX, Nat.mod_eq_of_lt (by omega)]
    have a2 : (y + r0) % m = (v - 1) % m := by
      rw [HY, Nat.mod_eq_of_lt (by omega)]
    have s1 : (x + r0 + (y + r0)) % m = (u - 1 + (v - 1)) % m := Nat.ModEq.add a1 a2
    have e1 : x + r0 + (y + r0) = x + y + 2 * r0 := by ring
    rw [e1] at s1
    have s2 : (x + y + 2 * r0) % m = (x + y + c) % m := Nat.ModEq.add_left (x + y) H2
    have s3 : (x + y + c) % m = (u - 1 + (v - 1)) % m := by rw [← s2, s1]
    have e2 : x + y + c = x + y + 2 + (u - 1 + (v - 1)) := by omega
    rw [e2] at s3
    nth_rewrite 2 [show u - 1 + (v - 1) = 0 + (u - 1 + (v - 1)) from by omega] at s3
    have s4 : (x + y + 2) % m = 0 % m := Nat.ModEq.add_right_cancel' _ s3
    rw [Nat.zero_mod] at s4
    exact Nat.dvd_of_mod_eq_zero s4
  have Hsum : x + y = m - 2 := by
    rcases Hdvd with ⟨k, hk⟩
    rcases k with _ | _ | _ | k
    · omega
    · omega
    · omega
    · have hk3 : x + y + 2 = m * (k + 3) := by rw [hk]
      have h3m : 3 * m ≤ m * (k + 3) := by
        have := Nat.mul_le_mul_left m (show 3 ≤ k + 3 by omega)
        omega
      omega
  set p1 := x + 1 with hp1def
  set p2 := y + 1 with hp2def
  have hp12 : p1 + p2 = m := by omega
  have hp1ne : p1 ≠ p2 := by omega
  have hval1 : origIdx m r0 p1 = u := by
    rw [origIdx_pos _ _ _ (by omega)]
    have e : p1 - 1 + r0 = x + r0 := by omega
    rw [e, HX]
    omega
  have hval2 : origIdx m r0 p2 = v := by
    rw [origIdx_pos _ _ _ (by omega)]
    have e : p2 - 1 + r0 = y + r0 := by omega
    rw [e, HY]
    omega
  have Hkey : ∀ r i, r < m → i < (m + 1) / 2 → hitPair m u v r i →
      r = r0 ∧ (i = p1 ∨ i = p2) := by
    intro r i hr hi hhit
    have hi0 : i ≠ 0 := by
      intro h0
      subst h0
      rcases hhit with ⟨h1, _⟩ | ⟨h1, _⟩ <;> (rw [origIdx_zero] at h1; omega)
    have him : m - i ≠ 0 := by omega
    have hmain : ∀ z1 z2, 1 ≤ z1 → z1 ≤ m → 1 ≤ z2 → z2 ≤ m →
        origIdx m r i = z1 → origIdx m r (m - i) = z2 →
        (2 * r) % m = (z1 + z2) % m ∧ (i - 1 + r) % m = z1 - 1 := by
      intro z1 z2 hz11 hz12 hz21 hz22 hoi hop
      rw [origIdx_pos _ _ _ hi0] at hoi
      rw [origIdx_pos _ _ _ him] at hop
      have b1 : (i - 1 + r) % m = z1 - 1 := by omega
      have b2 : (m - i - 1 + r) % m = z2 - 1 := by omega
      refine ⟨?_, b1⟩
      have a1 : (i - 1 + r) % m = (z1 - 1) % m := by
        rw [b1]
        have h9 : z1 - 1 < m := by omega
        rw [Nat.mod_eq_of_lt h9]
      have a2 : (m - i - 1 + r) % m = (z2 - 1) % m := by
        rw [b2]
        have h9 : z2 - 1 < m := by omega
        rw [Nat.mod_eq_of_lt h9]
      have s1 : (i - 1 + r + (m - i - 1 + r)) % m = (z1 - 1 + (z2 - 1)) % m :=
        Nat.ModEq.add a1 a2
      have e1 : i - 1 + r + (m - i - 1 + r) = m - 2 + 2 * r := by omega
      rw [e1] at s1
      have s2 : (m - 2 + 2 * r + 2) % m = (z1 - 1 + (z2 - 1) + 2) % m :=
        Nat.ModEq.add_right 2 s1
      have e2 : m - 2 + 2 * r + 2 = m + 2 * r := by omega
      have e3 : z1 - 1 + (z2 - 1) + 2 = z1 + z2 := by omega
      rw [e2, e3, Nat.add_mod_left] at s2
      exact s2
    rcases hhit with ⟨h1, h2⟩ | ⟨h1, h2⟩
    · obtain ⟨hrr, hii⟩ := hmain u v hu1 hu2 hv1 hv2 h1 h2
      have harg2 : (2 * r) % m = (2 * r0) % m := by rw [hrr, H2, hc]
      have hreq : r = r0 := modeq_cancel_two m r r0 hm harg2 hr hr0
      refine ⟨hreq, Or.inl ?_⟩
      rw [hreq] at hii
      have harg : (i - 1 + r0) % m = (x + r0) % m := by rw [hii, HX]
      have hcx : (i - 1) % m = x % m := Nat.ModEq.add_right_cancel' r0 harg
      have hb1 : i - 1 < m := by omega
      rw [Nat.mod_eq_of_lt hb1, Nat.mod_eq_of_lt hx] at hcx
      omega
    · obtain ⟨hrr, hii⟩ := hmain v u hv1 hv2 hu1 hu2 h1 h2
      have harg2 : (2 * r) % m = (2 * r0) % m := by
        rw [hrr, H2, hc, Nat.add_comm v u]
      have hreq : r = r0 := modeq_cancel_two m r r0 hm harg2 hr hr0
      refine ⟨hreq, Or.inr ?_⟩
      rw [hreq] at hii
      have harg : (i - 1 + r0) % m = (y + r0) % m := by rw [hii, HY]
      have hcy : (i - 1) % m = y % m := Nat.ModEq.add_right_cancel' r0 harg
      have hb1 : i - 1 < m := by omega
      rw [Nat.mod_eq_of_lt hb1, Nat.mod_eq_of_lt hy] at hcy
      omega
  by_cases hcmp : p1 < p2
  · refine ⟨r0, p1, hr0, by omega, ?_, ?_⟩
    · left
      refine ⟨hval1, ?_⟩
      have e : m - p1 = p2 := by omega
      rw [e]
      exact hval2
    · intro r i hr hi hhit
      rcases Hkey r i hr hi hhit with ⟨hreq, hior⟩
      exact ⟨hreq, by omega⟩
  · refine ⟨r0, p2, hr0, by omega, ?_, ?_⟩
    · right
      refine ⟨hval2, ?_⟩
      have e : m - p2 = p1 := by omega
      rw [e]
      exact hval1
    · intro r i hr hi hhit
      rcases Hkey r i hr hi hhit with ⟨hreq, hior⟩
      exact ⟨hreq, by omega⟩

theorem hitPair_exists_unique (m u v : Nat) (hm : m % 2 = 1) (hu : u < m + 1)
    (hv : v < m + 1) (huv : u ≠ v) :
    ∃ r0 i0, r0 < m ∧ i0 < (m + 1) / 2 ∧ hitPair m u v r0 i0 ∧
      ∀ r i, r < m → i < (m + 1) / 2 → hitPair m u v r i → r = r0 ∧ i = i0 := by
  by_cases hu0 : u = 0
  · subst hu0
    rcases hitPair_eu_zero m v hm (by omega) (by omega) with ⟨r0, hr0, hhit, huniq⟩
    exact ⟨r0, 0, hr0, by omega, hhit, huniq⟩
  · by_cases hv0 : v = 0
    · subst hv0
      rcases hitPair_eu_zero m u hm (by omega) (by omega) with ⟨r0, hr0, hhit, huniq⟩
      refine ⟨r0, 0, hr0, by omega, (hitPair_swap m u 0 r0 0).mpr hhit, ?_⟩
      intro r i hr hi hhit2
      exact huniq r i hr hi ((hitPair_swap m u 0 r i).mp hhit2)
    · exact hitPair_eu_pos m u v hm (by omega) (by omega) (by omega) (by omega) huv

theorem phantomHit_unique (m r : Nat) (hmodd : m % 2 = 1) :
    ∃ i0, i0 < (m + 1) / 2 ∧ phantomHit m r i0 ∧
      ∀ i, i < (m + 1) / 2 → phantomHit m r i → i = i0 := by
  have hm : 0 < m := by omega
  obtain ⟨p, hp1, hp2, hpval, hpuniq⟩ := origIdx_solve m r m hm (by omega) (le_refl m)
  by_cases hc : p < (m + 1) / 2
  · refine ⟨p, hc, Or.inl hpval, ?_⟩
    intro i hi hph
    rcases hph with h | h
    · exact hpuniq i (by omega) h
    · have := hpuniq (m - i) (by omega) h
      omega
  · refine ⟨m - p, by omega, Or.inr ?_, ?_⟩
    · have e : m - (m - p) = p := by omega
      rw [e]
      exact hpval
    · intro i hi hph
      rcases hph with h | h
      · have := hpuniq i (by omega) h
        omega
      · have := hpuniq (m - i) (by omega) h
        omega

theorem length_filterMap_countP {α β : Type} (f : α → Option β) :
    ∀ L : List α, (L.filterMap f).length = L.countP (fun x => (f x).isSome) := by
  intro L
  induction L with
  | nil => simp
  | cons x L ih =>
    rw [List.filterMap_cons]
    cases hf : f x with
    | none => simp [List.countP_cons, hf, ih]
    | some y => simp [List.countP_cons, hf, ih]

theorem round_countP_pair (t' rn k : Nat) (l : List (Option Nat)) (m : Nat)
    (hlen : l.length = m + 1) (hm0 : 0 < m) (hnd : l.Nodup)
    (u v a b : Nat) (hu : l[u]? = some (some a)) (hv : l[v]? = some (some b)) :
    (roundMatchesRR t' rn (rotIter k l)).countP (hasPair a b) =
      (List.range ((m + 1) / 2)).countP (fun i => decide (hitPair m u v k i)) := by
  have hlr : (rotIter k l).length = m + 1 := by rw [rotIter_length, hlen]
  rw [roundMatchesRR, countP_filterMap_eq, hlr]
  apply List.countP_congr
  intro i hi
  have hi2 : i < (m + 1) / 2 := List.mem_range.mp hi
  have hge1 : (rotIter k l)[i]? = l[origIdx m k i]? :=
    rotIter_getElem? l m hlen k i (by omega)
  have hge2 : (rotIter k l)[m + 1 - 1 - i]? = l[origIdx m k (m - i)]? := by
    have e : m + 1 - 1 - i = m - i := by omega
    rw [e]
    exact rotIter_getElem? l m hlen k (m - i) (by omega)
  rw [hge1, hge2]
  constructor
  · intro h
    rcases hcase1 : l[origIdx m k i]? with _ | o1 <;> rw [hcase1] at h
    · simp at h
    rcases o1 with _ | p
    · simp at h
    rcases hcase2 : l[origIdx m k (m - i)]? with _ | o2 <;> rw [hcase2] at h
    · simp at h
    rcases o2 with _ | q
    · simp at h
    simp only [hasPair, mkPending, decide_eq_true_eq] at h
    rcases h with ⟨hpa, hqb⟩ | ⟨hpb, hqa⟩
    · have hqb2 : q = b := by simpa using hqb
      rw [hpa] at hcase1
      rw [hqb2] at hcase2
      have e1 : origIdx m k i = u := getElem?_inj_of_nodup l hnd hcase1 hu
      have e2 : origIdx m k (m - i) = v := getElem?_inj_of_nodup l hnd hcase2 hv
      simp [hitPair, e1, e2]
    · have hqa2 : q = a := by simpa using hqa
      rw [hpb] at hcase1
      rw [hqa2] at hcase2
      have e1 : origIdx m k i = v := getElem?_inj_of_nodup l hnd hcase1 hv
      have e2 : origIdx m k (m - i) = u := getElem?_inj_of_nodup l hnd hcase2 hu
      simp [hitPair, e1, e2]
  · intro h
    have h2 : hitPair m u v k i := by simpa using h
    rcases h2 with ⟨h1, h3⟩ | ⟨h1, h3⟩
    · rw [h1, h3, hu, hv]
      simp [hasPair, mkPending]
    · rw [h1, h3, hv, hu]
      simp [hasPair, mkPending]

theorem countP_range_all_bool (k : Nat) (p : Nat → Bool)
    (h : ∀ i, i < k → p i = true) : (List.range k).countP p = k := by
  have := (List.countP_eq_length (p := p) (l := List.range k)).mpr
    (fun a ha => h a (List.mem_range.mp ha))
  rw [this, List.length_range]

theorem countP_range_one_false (k : Nat) (p : Nat → Bool) (i0 : Nat) (h0 : i0 < k)
    (hf : p i0 = false) (huniq : ∀ i, i < k → p i = false → i = i0) :
    (List.range k).countP p = k - 1 := by
  have hlen := List.length_eq_countP_add_countP p (List.range k)
  have hone := countP_range_eq_one k (fun i => p i = false) i0 h0 hf huniq
  have hcong : (List.range k).countP (fun a => ¬ p a) =
      (List.range k).countP (fun i => decide (p i = false)) := by
    apply List.countP_congr
    intro a _
    cases hpa : p a <;> simp [hpa]
  rw [List.length_range, hcong, hone] at hlen
  omega

theorem entry_is_real (k : Nat) (l : List (Option Nat)) (m : Nat)
    (hlen : l.length = m + 1) (hnone : ∀ x ∈ l, x ≠ none) (i : Nat) (hi : i < m + 1) :
    ∃ p, (rotIter k l)[i]? = some (some p) := by
  have hb : i < (rotIter k l).length := by rw [rotIter_length, hlen]; omega
  have hsome := List.getElem?_eq_getElem hb
  have hmem : (rotIter k l)[i] ∈ l := (rotIter_perm k l).mem_iff.mp (List.getElem_mem hb)
  have hne := hnone _ hmem
  cases hval : (rotIter k l)[i] with
  | none => exact absurd hval hne
  | some p => exact ⟨p, by rw [hsome, hval]⟩

theorem round_length_all_real (t' rn k : Nat) (l : List (Option Nat)) (m : Nat)
    (hlen : l.length = m + 1) (hnone : ∀ x ∈ l, x ≠ none) :
    (roundMatchesRR t' rn (rotIter k l)).length = (m + 1) / 2 := by
  have hlr : (rotIter k l).length = m + 1 := by rw [rotIter_length, hlen]
  rw [roundMatchesRR, length_filterMap_countP, hlr]
  apply countP_range_all_bool
  intro i hi
  obtain ⟨p, hp⟩ := entry_is_real k l m hlen hnone i (by omega)
  obtain ⟨q, hq⟩ := entry_is_real k l m hlen hnone (m + 1 - 1 - i) (by omega)
  rw [hp, hq]
  rfl

theorem round_length_one_none (t' rn k : Nat) (l : List (Option Nat)) (m : Nat)
    (hlen : l.length = m + 1) (hmodd : m % 2 = 1) (hnd : l.Nodup)
    (hnone : l[m]? = some none) :
    (roundMatchesRR t' rn (rotIter k l)).length = (m + 1) / 2 - 1 := by
  have hm : 0 < m := by omega
  have hlr : (rotIter k l).length = m + 1 := by rw [rotIter_length, hlen]
  rw [roundMatchesRR, length_filterMap_countP, hlr]
  obtain ⟨i0, hi0, hph0, huniq0⟩ := phantomHit_unique m k hmodd
  -- the filterMap pred at i is false exactly when the pair touches the phantom
  have hchar : ∀ i, i < (m + 1) / 2 →
      (((match (rotIter k l)[i]?, (rotIter k l)[m + 1 - 1 - i]? with
        | some (some p), some (some q) => some (mkPending t' p (some q) rn "Principal")
        | _, _ => none) : Option Match).isSome = false ↔ phantomHit m k i) := by
    intro i hi2
    have hge1 : (rotIter k l)[i]? = l[origIdx m k i]? :=
      rotIter_getElem? l m hlen k i (by omega)
    have hge2 : (rotIter k l)[m + 1 - 1 - i]? = l[origIdx m k (m - i)]? := by
      have e : m + 1 - 1 - i = m - i := by omega
      rw [e]
      exact rotIter_getElem? l m hlen k (m - i) (by omega)
    rw [hge1, hge2]
    have hbound1 : origIdx m k i < m + 1 := by
      rcases Nat.eq_zero_or_pos i with h0 | h0
      · rw [h0, origIdx_zero]; omega
      · have := origIdx_bounds m k i hm (by omega)
        omega
    have hbound2 : origIdx m k (m - i) < m + 1 := by
      rcases Nat.eq_zero_or_pos (m - i) with h0 | h0
      · rw [h0, origIdx_zero]; omega
      · have := origIdx_bounds m k (m - i) hm (by omega)
        omega
    have hv1 := List.getElem?_eq_getElem (hlen ▸ hbound1)
    have hv2 := List.getElem?_eq_getElem (hlen ▸ hbound2)
    have hidx : ∀ j, j < m + 1 → (l[j]? = some none ↔ j = m) := by
      intro j hj
      constructor
      · intro hjn
        exact getElem?_inj_of_nodup l hnd hjn hnone
      · intro hje
        rw [hje]
        exact hnone
    rw [hv1, hv2]
    cases hcase1 : l[origIdx m k i] with
    | none =>
      have he1 : origIdx m k i = m := (hidx _ hbound1).mp (by rw [hv1, hcase1])
      simp [phantomHit, he1]
    | some p =>
      cases hcase2 : l[origIdx m k (m - i)] with
      | none =>
        have he2 : origIdx m k (m - i) = m := (hidx _ hbound2).mp (by rw [hv2, hcase2])
        simp [phantomHit, he2]
      | some q =>
        have hne1 : origIdx m k i ≠ m := by
          intro he
          have := (hidx _ hbound1).mpr he
          rw [hv1, hcase1] at this
          simp at this
        have hne2 : origIdx m k (m - i) ≠ m := by
          intro he
          have := (hidx _ hbound2).mpr he
          rw [hv2, hcase2] at this
          simp at this
        simp [phantomHit, hne1, hne2]
  apply countP_range_one_false _ _ i0 hi0
  · exact (hchar i0 hi0).mpr hph0
  · intro i hi hfalse
    exact huniq0 i hi ((hchar i hi).mp hfalse)

theorem rrRounds_length_sum (t' : Nat) (fuel r0 : Nat) (l : List (Option Nat)) :
    (rrRounds t' l r0 fuel).length =
      ((List.range fuel).map
        (fun k => (roundMatchesRR t' (r0 + k) (rotIter k l)).length)).sum := by
  have h := rrRounds_countP t' (fun _ => true) fuel r0 l
  simp only [List.countP_true] at h
  exact h

theorem rr_core (tid : Nat) (ps : List Nat) (l : List (Option Nat)) (m : Nat)
    (hl : generateRoundRobinBracket ps tid = rrRounds tid l 1 m)
    (hlen : l.length = m + 1) (hm : m % 2 = 1) (hnd : l.Nodup)
    (c : Nat)
    (hc : ∀ k, k < m → (roundMatchesRR tid (1 + k) (rotIter k l)).length = c)
    (hcpos : 0 < c) :
    (generateRoundRobinBracket ps tid).length = m * c ∧
    (∀ mm ∈ generateRoundRobinBracket ps tid, 1 ≤ mm.ronda ∧ mm.ronda ≤ m) ∧
    (∀ r, 1 ≤ r → r ≤ m → ∃ mm ∈ generateRoundRobinBracket ps tid, mm.ronda = r) ∧
    (∀ u v a b, u < m + 1 → v < m + 1 → u ≠ v →
      l[u]? = some (some a) → l[v]? = some (some b) →
      (generateRoundRobinBracket ps tid).countP (hasPair a b) = 1) := by
  have hm0 : 0 < m := by omega
  refine ⟨?_, ?_, ?_, ?_⟩
  · rw [hl, rrRounds_length_sum]
    have hcong : (List.range m).map
        (fun k => (roundMatchesRR tid (1 + k) (rotIter k l)).length) =
        (List.range m).map (fun _ => c) := by
      apply List.map_congr_left
      intro k hk
      exact hc k (List.mem_range.mp hk)
    rw [hcong]
    simp [List.map_const', List.sum_replicate, smul_eq_mul]
  · intro mm hmm2
    rw [hl] at hmm2
    have := rrRounds_ronda tid m 1 l mm hmm2
    omega
  · intro r hr1 hr2
    have hk : r - 1 < m := by omega
    have hpos : 0 < (roundMatchesRR tid (1 + (r - 1)) (rotIter (r - 1) l)).length := by
      rw [hc (r - 1) hk]
      exact hcpos
    rcases rrRounds_round_nonempty tid m 1 (r - 1) l hk hpos with ⟨mm, hmem, hronda⟩
    rw [← hl] at hmem
    exact ⟨mm, hmem, by omega⟩
  · intro u v a b hu hv huv hlu hlv
    rw [hl, rrRounds_countP tid (hasPair a b) m 1 l]
    obtain ⟨r0, i0, hr0, hi0, hhit, huniq⟩ := hitPair_exists_unique m u v hm hu hv huv
    apply sum_map_range_eq_one _ m r0 hr0
    · rw [round_countP_pair tid (1 + r0) r0 l m hlen hm0 hnd u v a b hlu hlv]
      exact countP_range_eq_one _ _ i0 hi0 hhit
        (fun i hi hQ => (huniq r0 i hr0 hi hQ).2)
    · intro r hr hne
      rw [round_countP_pair tid (1 + r) r l m hlen hm0 hnd u v a b hlu hlv]
      exact countP_range_eq_zero _ _ (fun i hi hQ => hne (huniq r i hr hi hQ).1)

/-- C5: round-robin generation for `n ≥ 2` distinct players creates exactly
`n·(n−1)/2` matches, the rounds span `1..n−1` for even `n` and `1..n` for
odd `n` (via the phantom BYE) with every round non-empty, and every
unordered pair of distinct players appears in exactly one generated
match. -/
theorem roundRobin_complete (ps : List Nat) (tid : Nat) (hnd : ps.Nodup)
    (hn : 2 ≤ ps.length) :
    (generateRoundRobinBracket ps tid).length = ps.length * (ps.length - 1) / 2 ∧
    (∀ mm ∈ generateRoundRobinBracket ps tid, 1 ≤ mm.ronda ∧
      mm.ronda ≤ (if ps.length % 2 = 0 then ps.length - 1 else ps.length)) ∧
    (∀ r, 1 ≤ r → r ≤ (if ps.length % 2 = 0 then ps.length - 1 else ps.length) →
      ∃ mm ∈ generateRoundRobinBracket ps tid, mm.ronda = r) ∧
    (∀ a ∈ ps, ∀ b ∈ ps, a ≠ b →
      (generateRoundRobinBracket ps tid).countP (hasPair a b) = 1) := by
  have hmapnd : (ps.map some).Nodup := hnd.map (Option.some_injective Nat)
  by_cases hpar : ps.length % 2 = 0
  · -- even player count: no phantom, m = n - 1 rounds
    have hgen : generateRoundRobinBracket ps tid =
        rrRounds tid (ps.map some) 1 (ps.length - 1) := by
      simp [generateRoundRobinBracket, hpar]
    have hlen : (ps.map some).length = (ps.length - 1) + 1 := by
      simp
      omega
    have hmodd : (ps.length - 1) % 2 = 1 := by omega
    have hnone : ∀ x ∈ ps.map some, x ≠ none := by
      intro x hx
      rcases List.mem_map.mp hx with ⟨a, _, ha⟩
      rw [← ha]
      simp
    have hc : ∀ k, k < ps.length - 1 →
        (roundMatchesRR tid (1 + k) (rotIter k (ps.map some))).length =
          ((ps.length - 1) + 1) / 2 :=
      fun k _ => round_length_all_real tid (1 + k) k (ps.map some) (ps.length - 1)
        hlen hnone
    obtain ⟨hlength, hronda, hnonempty, hpairs⟩ :=
      rr_core tid ps (ps.map some) (ps.length - 1) hgen hlen hmodd hmapnd
        (((ps.length - 1) + 1) / 2) hc (by omega)
    refine ⟨?_, ?_, ?_, ?_⟩
    · rw [hlength]
      obtain ⟨cc, hcc⟩ : ∃ cc, ps.length = 2 * cc := ⟨ps.length / 2, by omega⟩
      rw [hcc]
      have h1 : (2 * cc - 1) + 1 = 2 * cc := by omega
      rw [h1]
      have h2 : 2 * cc / 2 = cc := by omega
      rw [h2]
      have h3 : 2 * cc * (2 * cc - 1) = 2 * (cc * (2 * cc - 1)) := by ring
      rw [h3, Nat.mul_div_cancel_left _ (by norm_num : 0 < 2)]
      exact Nat.mul_comm _ _
    · intro mm hmm2
      rw [if_pos hpar]
      exact hronda mm hmm2
    · intro r hr1 hr2
      rw [if_pos hpar] at hr2
      exact hnonempty r hr1 hr2
    · intro a ha b hb hab
      obtain ⟨ua, hua, huaval⟩ := List.getElem_of_mem ha
      obtain ⟨ub, hub, hubval⟩ := List.getElem_of_mem hb
      have hne : ua ≠ ub := by
        intro he
        apply hab
        rw [← huaval, ← hubval]
        subst he
        rfl
      refine hpairs ua ub a b (by omega) (by omega) hne ?_ ?_
      · rw [List.getElem?_map, List.getElem?_eq_getElem hua, huaval]
        rfl
      · rw [List.getElem?_map, List.getElem?_eq_getElem hub, hubval]
        rfl
  · -- odd player count: phantom BYE appended, m = n rounds
    have hgen : generateRoundRobinBracket ps tid =
        rrRounds tid (ps.map some ++ [none]) 1 ps.length := by
      simp [generateRoundRobinBracket, hpar]
    have hlen : (ps.map some ++ [none]).length = ps.length + 1 := by simp
    have hmodd : ps.length % 2 = 1 := by omega
    have hndl : (ps.map some ++ [none]).Nodup := by
      rw [List.nodup_append]
      refine ⟨hmapnd, List.nodup_singleton none, ?_⟩
      intro x hx hx2
      rcases List.mem_map.mp hx with ⟨a, _, ha⟩
      rw [List.mem_singleton] at hx2
      rw [hx2] at ha
      exact Option.noConfusion ha
    have hphantom : (ps.map some ++ [none])[ps.length]? = some none := by
      have h := List.getElem?_concat_length (ps.map some) (none : Option Nat)
      rw [List.length_map] at h
      exact h
    have hc : ∀ k, k < ps.length →
        (roundMatchesRR tid (1 + k) (rotIter k (ps.map some ++ [none]))).length =
          (ps.length + 1) / 2 - 1 :=
      fun k _ => round_length_one_none tid (1 + k) k (ps.map some ++ [none]) ps.length
        hlen hmodd hndl hphantom
    obtain ⟨hlength, hronda, hnonempty, hpairs⟩ :=
      rr_core tid ps (ps.map some ++ [none]) ps.length hgen hlen hmodd hndl
        ((ps.length + 1) / 2 - 1) hc (by omega)
    refine ⟨?_, ?_, ?_, ?_⟩
    · rw [hlength]
      obtain ⟨cc, hcc⟩ : ∃ cc, ps.length = 2 * cc + 1 := ⟨ps.length / 2, by omega⟩
      rw [hcc]
      have h1 : (2 * cc + 1 + 1) / 2 - 1 = cc := by omega
      rw [h1]
      have h2 : (2 * cc + 1) * (2 * cc + 1 - 1) = 2 * ((2 * cc + 1) * cc) := by
        have h3 : 2 * cc + 1 - 1 = 2 * cc := by omega
        rw [h3]
        ring
      rw [h2, Nat.mul_div_cancel_left _ (by norm_num : 0 < 2)]
    · intro mm hmm2
      rw [if_neg hpar]
      exact hronda mm hmm2
    · intro r hr1 hr2
      rw [if_neg hpar] at hr2
      exact hnonempty r hr1 hr2
    · intro a ha b hb hab
      obtain ⟨ua, hua, huaval⟩ := List.getElem_of_mem ha
      obtain ⟨ub, hub, hubval⟩ := List.getElem_of_mem hb
      have hne : ua ≠ ub := by
        intro he
        apply hab
        rw [← huaval, ← hubval]
        subst he
        rfl
      refine hpairs ua ub a b (by omega) (by omega) hne ?_ ?_
      · rw [List.getElem?_append_left (by simpa using hua),
          List.getElem?_map, List.getElem?_eq_getElem hua, huaval]
        rfl
      · rw [List.getElem?_append_left (by simpa using hub),
          List.getElem?_map, List.getElem?_eq_getElem hub, hubval]
        rfl

/-- C5 witness: three players `[10, 20, 30]` (odd count, phantom BYE):
3 matches over 3 rounds, each unordered pair exactly once. -/
theorem roundRobin_complete_witness :
    ([10, 20, 30] : List Nat).Nodup ∧
    (generateRoundRobinBracket [10, 20, 30] 4).length = 3 * (3 - 1) / 2 ∧
    (generateRoundRobinBracket [10, 20, 30] 4).countP (hasPair 10 20) = 1 ∧
    (generateRoundRobinBracket [10, 20, 30] 4).countP (hasPair 10 30) = 1 ∧
    (generateRoundRobinBracket [10, 20, 30] 4).countP (hasPair 20 30) = 1 :=
  ⟨by decide,
    (roundRobin_complete [10, 20, 30] 4 (by decide) (by decide)).1,
    (roundRobin_complete [10, 20, 30] 4 (by decide) (by decide)).2.2.2
      10 (by decide) 20 (by decide) (by decide),
    (roundRobin_complete [10, 20, 30] 4 (by decide) (by decide)).2.2.2
      10 (by decide) 30 (by decide) (by decide),
    (roundRobin_complete [10, 20, 30] 4 (by decide) (by decide)).2.2.2
      20 (by decide) 30 (by decide) (by decide)⟩

end TT
